import Mathlib

/-!
Verification of the api_testing execution/verification engine
(`src/backend/src/validator.py`, `runner.py`, `utils.py`, `config.py`,
`routers/runner/execute_direct.py`) against its specification.

Modelling conventions, chosen to mirror Python semantics:

* JSON values are the inductive `Json` below.  Python distinguishes `int`
  from `float` (`isinstance(3.0, int)` is false), so the model keeps two
  numeric constructors; `Rat` stands in for Python floats (no claim touches
  IEEE rounding).  Python `bool` is a subclass of `int`, so every
  `isinstance(x, (int, float))` test in the source accepts booleans and every
  numeric comparison sees `True` as 1 and `False` as 0; the model reproduces
  this via `numVal?`.
* Python `==` on JSON data is `pyEq`: numeric values compare by value across
  `bool`/`int`/`float`, dicts compare by size and key lookup, everything else
  structurally.  Dicts are association lists; all reachable dicts have unique
  keys (Python dicts cannot hold a key twice), and every access goes through
  first-occurrence lookup, matching dict semantics on that fragment.
* Code that can raise a Python exception is modelled in `Except PyErr`;
  total code stays pure.
* Failure-message strings are abridged: every claim depends only on which
  check appends a failure, never on the exact wording, so messages keep the
  path/keyword prefix and drop interpolated value reprs.
* `re.search`/`re.compile` cannot be embedded; functions needing them take
  the match/compile oracle as an explicit parameter and every theorem below
  is parametric in it (no claim exercises regex matching itself).
-/

/-- JSON values as produced by Python's `json` module. -/
inductive Json where
  | null : Json
  | bool : Bool → Json
  | int : Int → Json
  | float : Rat → Json
  | str : String → Json
  | arr : List Json → Json
  | obj : List (String × Json) → Json

namespace Json

/-- Numeric value of a Python object under arithmetic/comparison, if any.
Python `bool` is a subclass of `int`: `True` counts as 1 and `False` as 0. -/
def numVal? : Json → Option Rat
  | .bool b => some (if b then 1 else 0)
  | .int n => some (n : Rat)
  | .float q => some q
  | _ => none

/-- Dict lookup (`d[k]` / `d.get(k)`): first occurrence of the key. -/
def lookupField : List (String × Json) → String → Option Json
  | [], _ => none
  | (k, v) :: rest, key => if k == key then some v else lookupField rest key

/-- Dict membership test (`k in d`). -/
def hasField (fields : List (String × Json)) (key : String) : Bool :=
  (lookupField fields key).isSome

mutual

/-- Python `==` on JSON data.  Numbers (including booleans) compare by
value; lists elementwise; dicts by size plus per-key lookup. -/
def pyEq : Json → Json → Bool
  | a, b =>
    match numVal? a, numVal? b with
    | some x, some y => x == y
    | _, _ =>
      match a, b with
      | .null, .null => true
      | .str s, .str t => s == t
      | .arr xs, .arr ys => pyEqList xs ys
      | .obj fs, .obj gs => fs.length == gs.length && pyEqFields fs gs
      | _, _ => false

def pyEqList : List Json → List Json → Bool
  | [], [] => true
  | x :: xs, y :: ys => pyEq x y && pyEqList xs ys
  | _, _ => false

def pyEqFields : List (String × Json) → List (String × Json) → Bool
  | [], _ => true
  | (k, v) :: rest, gs =>
    (match lookupField gs k with
     | some w => pyEq v w
     | none => false) && pyEqFields rest gs

end

/-- Python truthiness (`if x:`) of a JSON value. -/
def pyTruthy : Json → Bool
  | .null => false
  | .bool b => b
  | .int n => n != 0
  | .float q => q != 0
  | .str s => s != ""
  | .arr xs => !xs.isEmpty
  | .obj fs => !fs.isEmpty

/-- Python substring test `needle in haystack` on strings: the needle's
characters occur contiguously inside the haystack's. -/
def pyInStr (needle haystack : String) : Bool :=
  decide (needle.data <:+: haystack.data)

mutual

/-- `validator._subset(expected, actual)`: dict subset / list multi-subset /
equality otherwise.  Note the argument order of the source: expected first. -/
def subset : Json → Json → Bool
  | .obj e, .obj a => subsetFields e a
  | .arr e, .arr a => subsetArr e a
  | e, a => pyEq e a

/-- The dict branch of `_subset`: every expected key must exist in the
actual dict with a recursively `_subset`-matching value. -/
def subsetFields : List (String × Json) → List (String × Json) → Bool
  | [], _ => true
  | (k, v) :: rest, a =>
    (match lookupField a k with
     | some w => subset v w
     | none => false) && subsetFields rest a

/-- The list branch of `_subset`: the source walks the expected elements in
order keeping a `used` mask over the actual list and marks the first unused
match; consuming the first matching element of the not-yet-used remainder is
the same computation with the used elements removed. -/
def subsetArr : List Json → List Json → Bool
  | [], _ => true
  | e :: es, as =>
    match removeFirstMatch e as with
    | some rest => subsetArr es rest
    | none => false

/-- Remove the first element of the list that `_subset`-matches `e`;
`none` when no element matches. -/
def removeFirstMatch : Json → List Json → Option (List Json)
  | _, [] => none
  | e, a :: rest =>
    if subset e a then some rest
    else
      match removeFirstMatch e rest with
      | some rest2 => some (a :: rest2)
      | none => none

end

/-- `validator._contains(actual, expected)`: substring test for strings,
`_subset` for dicts and lists, `False` otherwise. -/
def pyContains (actual expected : Json) : Bool :=
  match actual, expected with
  | .str a, .str e => pyInStr e a
  | .obj fs, e => subset e (.obj fs)
  | .arr xs, e => subset e (.arr xs)
  | _, _ => false

end Json

/-! ## Python exceptions

`Except PyErr` marks code that can raise: `int()` on a non-numeral raises
`ValueError`, an order comparison between incompatible types raises
`TypeError`. -/

inductive PyErr where
  | valueError : PyErr
  | typeError : PyErr
deriving DecidableEq

/-- Python `int(s)` on the string's characters: optional surrounding
whitespace, optional sign, then one or more digits; anything else raises
`ValueError`.  (Python also allows digit-group underscores; no reachable
input uses them.) -/
def pyIntChars? (cs : List Char) : Option Int :=
  let t := ((cs.dropWhile Char.isWhitespace).reverse.dropWhile Char.isWhitespace).reverse
  let sd : Int × List Char :=
    match t with
    | '-' :: rest => (-1, rest)
    | '+' :: rest => (1, rest)
    | rest => (1, rest)
  if sd.2 ≠ [] ∧ sd.2.all Char.isDigit then
    some (sd.1 * (sd.2.foldl (fun acc c => acc * 10 + (c.toNat - '0'.toNat)) 0 : Nat))
  else none

namespace Json

/-- One step of `re.sub(r"\[(\d+)\]", r".#\1", path)`: at an opening
bracket followed by one or more digits and a closing bracket, rewrite the
group to `.#digits`; elsewhere copy the character and move on. -/
def convBrackets : List Char → List Char
  | [] => []
  | '[' :: rest =>
    let ds := rest.takeWhile Char.isDigit
    let r2 := rest.dropWhile Char.isDigit
    if ds ≠ [] ∧ r2.head? = some ']' then
      '.' :: '#' :: (ds ++ convBrackets r2.tail)
    else
      '[' :: convBrackets rest
  | c :: rest => c :: convBrackets rest
termination_by l => l.length
decreasing_by
  · have h1 : (rest.dropWhile Char.isDigit).length ≤ rest.length :=
      (List.dropWhile_suffix _).length_le
    have h2 : (rest.dropWhile Char.isDigit).tail.length ≤
        (rest.dropWhile Char.isDigit).length - 1 := by
      cases rest.dropWhile Char.isDigit <;> simp
    simp only [List.length_cons]
    omega
  · simp only [List.length_cons]; omega
  · simp only [List.length_cons]; omega

/-- `path.split(".")` at character level. -/
def splitDot : List Char → List Char → List (List Char)
  | [], acc => [acc.reverse]
  | '.' :: rest, acc => acc.reverse :: splitDot rest []
  | c :: rest, acc => splitDot rest (c :: acc)

/-- Dict lookup with the key given as characters (`cur[p]` during the path
walk, where `p` is a split segment). -/
def lookupFieldChars : List (String × Json) → List Char → Option Json
  | [], _ => none
  | (k, v) :: rest, key => if k.data = key then some v else lookupFieldChars rest key

/-- The preprocessing of `validator._resolve_path`: strip an optional
`$`/`$.` root marker, strip leading dots, rewrite `[idx]` to `.#idx`,
split on dots, drop empty segments. -/
def pathParts (path : String) : List (List Char) :=
  let p1 : List Char :=
    match path.data with
    | '$' :: rest => (match rest with | '.' :: r2 => r2 | r => r)
    | l => l
  let p2 := p1.dropWhile (· = '.')
  (splitDot (convBrackets p2) []).filter (· ≠ [])

/-- The segment walk of `validator._resolve_path`.  A `#`-segment indexes a
list (`_MISSING` on a non-list, a negative index, or one past the end, and
`ValueError` when the text after `#` is not an `int()` numeral); any other
segment looks up a dict key (`_MISSING` on a non-dict or an absent key).
`Option Json` is the result with `none` as the `_MISSING` sentinel, which
is distinct from JSON `null` (`some Json.null`). -/
def resolveSegs : Json → List (List Char) → Except PyErr (Option Json)
  | cur, [] => .ok (some cur)
  | cur, p :: rest =>
    if p.head? = some '#' then
      match cur with
      | .arr xs =>
        (match pyIntChars? p.tail with
         | none => .error .valueError
         | some idx =>
           if idx < 0 then .ok none
           else
             match xs[idx.toNat]? with
             | some v => resolveSegs v rest
             | none => .ok none)
      | _ => .ok none
    else
      match cur with
      | .obj fs =>
        (match lookupFieldChars fs p with
         | some v => resolveSegs v rest
         | none => .ok none)
      | _ => .ok none

/-- `validator._resolve_path(obj, path)`: empty (or empty-after-stripping)
paths return the object itself; otherwise walk the parsed segments. -/
def resolve_path (o : Json) (path : String) : Except PyErr (Option Json) :=
  if path.data = [] then .ok (some o)
  else
    let p1 : List Char :=
      match path.data with
      | '$' :: rest => (match rest with | '.' :: r2 => r2 | r => r)
      | l => l
    let p2 := p1.dropWhile (· = '.')
    if p2 = [] then .ok (some o)
    else resolveSegs o (pathParts path)

end Json

/-! ## Variable resolver (`utils.replace_variables_in_text` and friends)

The source substitutes every occurrence of the regex `\{\x7b([^}]+)\}\x7d`
(two opening braces, one or more non-`\x7d` characters, two closing braces)
by `str(variables.get(name.strip(), match.group(0)))`: the variable's value
when the stripped name is bound, the matched text verbatim otherwise. -/

namespace Resolver

/-- Python `.strip()`: drop whitespace from both ends. -/
def pyStrip (cs : List Char) : List Char :=
  ((cs.dropWhile Char.isWhitespace).reverse.dropWhile Char.isWhitespace).reverse

/-- `variables.get(name)` with the raw (already stripped) name characters. -/
def lookupVar : List (String × String) → List Char → Option String
  | [], _ => none
  | (k, v) :: rest, name => if k.data = name then some v else lookupVar rest name

/-- Characters allowed inside the group: anything but a closing brace. -/
def notCloseBrace (c : Char) : Bool := c != '}'

/-- Match the pattern at the head of the character list: two opening braces,
a non-empty run of non-closing-brace characters, two closing braces.
Returns the raw group characters and the remainder after the match. -/
def matchAt? : List Char → Option (List Char × List Char)
  | '{' :: '{' :: rest =>
    let name := rest.takeWhile notCloseBrace
    let r2 := rest.dropWhile notCloseBrace
    if name ≠ [] ∧ r2.take 2 = ['}', '}'] then some (name, r2.drop 2) else none
  | _ => none

theorem matchAt?_length_lt {l name rem : List Char} (h : matchAt? l = some (name, rem)) :
    rem.length < l.length := by
  rw [matchAt?.eq_def] at h
  split at h
  · rename_i rest
    simp only [] at h
    split at h
    · cases h
      have h1 : (rest.dropWhile notCloseBrace).length ≤ rest.length :=
        (List.dropWhile_suffix _).length_le
      simp only [List.length_drop, List.length_cons]
      omega
    · cases h
  · cases h

/-- The scan of `re.sub`: try to match at each position; on a match, emit
the bound value (or the matched text verbatim when the name is unbound) and
continue after the match, else copy one character and move on. -/
def substChars (vars : List (String × String)) : List Char → List Char
  | [] => []
  | c :: rest =>
    match h : matchAt? (c :: rest) with
    | some (name, rem) =>
      (match lookupVar vars (pyStrip name) with
       | some v => v.data
       | none => '{' :: '{' :: (name ++ '}' :: '}' :: [])) ++ substChars vars rem
    | none => c :: substChars vars rest
termination_by l => l.length
decreasing_by
  · exact matchAt?_length_lt h
  · simp

theorem substChars_nil (vars : List (String × String)) : substChars vars [] = [] := by
  rw [substChars]

theorem substChars_cons_match {c : Char} {rest name rem : List Char}
    (vars : List (String × String)) (h : matchAt? (c :: rest) = some (name, rem)) :
    substChars vars (c :: rest) =
      (match lookupVar vars (pyStrip name) with
       | some v => v.data
       | none => '{' :: '{' :: (name ++ '}' :: '}' :: [])) ++ substChars vars rem := by
  rw [substChars]
  split
  · rename_i name2 rem2 h2
    rw [h] at h2
    simp only [Option.some.injEq, Prod.mk.injEq] at h2
    rw [h2.1, h2.2]
  · rename_i h2
    rw [h] at h2
    exact Option.noConfusion h2

theorem substChars_cons_nomatch {c : Char} {rest : List Char}
    (vars : List (String × String)) (h : matchAt? (c :: rest) = none) :
    substChars vars (c :: rest) = c :: substChars vars rest := by
  rw [substChars]
  split
  · rename_i name2 rem2 h2
    rw [h] at h2
    exact Option.noConfusion h2
  · rfl

/-- `utils.replace_variables_in_text`: no-op when the variable map is falsy,
otherwise regex substitution over the text. -/
def replace_variables_in_text (text : String) (vars : List (String × String)) : String :=
  if vars.isEmpty then text else String.mk (substChars vars text.data)

end Resolver

namespace Resolver

/-- Does the substitution pattern match anywhere in the text?  `re.search`
of the same regex: try every position. -/
def hasPatternChars : List Char → Bool
  | [] => false
  | c :: rest => (matchAt? (c :: rest)).isSome || hasPatternChars rest

/-- A text without any occurrence of the pattern is left unchanged by the
substitution scan. -/
theorem substChars_of_no_pattern (vars : List (String × String)) :
    ∀ l : List Char, hasPatternChars l = false → substChars vars l = l := by
  intro l
  induction l with
  | nil => intro _; rw [substChars]
  | cons c rest ih =>
    intro h
    rw [hasPatternChars] at h
    simp only [Bool.or_eq_false_iff] at h
    rw [substChars]
    split
    · rename_i name rem hm
      rw [hm] at h
      simp at h
    · rw [ih h.2]

/-! Substitution applied to string data inside JSON-shaped request data
(`utils.replace_variables_in_dict` / `utils.replace_variables_in_list` and
the per-element `isinstance` dispatch shared by both).  The source has an
early `not variables` return at each level; it only changes the computation
path inside `replace_variables_in_text`, where it is kept. -/

mutual

def replace_variables_in_dict (vars : List (String × String)) :
    List (String × Json) → List (String × Json)
  | [] => []
  | (k, v) :: rest => (k, replaceElem vars v) :: replace_variables_in_dict vars rest

def replace_variables_in_list (vars : List (String × String)) : List Json → List Json
  | [] => []
  | x :: rest => replaceElem vars x :: replace_variables_in_list vars rest

def replaceElem (vars : List (String × String)) : Json → Json
  | .str s => .str (replace_variables_in_text s vars)
  | .obj fs => .obj (replace_variables_in_dict vars fs)
  | .arr xs => .arr (replace_variables_in_list vars xs)
  | v => v

end

/-! `hasPatternValue`: does any string leaf of the value still contain the
pattern? -/

mutual

def hasPatternValue : Json → Bool
  | .str s => hasPatternChars s.data
  | .obj fs => hasPatternFields fs
  | .arr xs => hasPatternList xs
  | _ => false

def hasPatternFields : List (String × Json) → Bool
  | [] => false
  | (_, v) :: rest => hasPatternValue v || hasPatternFields rest

def hasPatternList : List Json → Bool
  | [] => false
  | x :: rest => hasPatternValue x || hasPatternList rest

end

/-- A string with no remaining pattern is a fixed point of
`replace_variables_in_text`. -/
theorem replace_text_of_no_pattern (s : String) (vars : List (String × String))
    (h : hasPatternChars s.data = false) : replace_variables_in_text s vars = s := by
  rw [replace_variables_in_text]
  split
  · rfl
  · rw [substChars_of_no_pattern vars s.data h]

mutual

theorem replaceElem_fix : ∀ (vars : List (String × String)) (v : Json),
    hasPatternValue v = false → replaceElem vars v = v
  | vars, .str s, h => by
    rw [hasPatternValue] at h
    rw [replaceElem, replace_text_of_no_pattern s vars h]
  | vars, .obj fs, h => by
    rw [hasPatternValue] at h
    rw [replaceElem, replace_dict_fix vars fs h]
  | vars, .arr xs, h => by
    rw [hasPatternValue] at h
    rw [replaceElem, replace_list_fix vars xs h]
  | vars, .null, _ => by simp [replaceElem]
  | vars, .bool _, _ => by simp [replaceElem]
  | vars, .int _, _ => by simp [replaceElem]
  | vars, .float _, _ => by simp [replaceElem]

theorem replace_dict_fix : ∀ (vars : List (String × String)) (fs : List (String × Json)),
    hasPatternFields fs = false → replace_variables_in_dict vars fs = fs
  | _, [], _ => by rw [replace_variables_in_dict]
  | vars, (k, v) :: rest, h => by
    rw [hasPatternFields, Bool.or_eq_false_iff] at h
    rw [replace_variables_in_dict, replaceElem_fix vars v h.1, replace_dict_fix vars rest h.2]

theorem replace_list_fix : ∀ (vars : List (String × String)) (xs : List Json),
    hasPatternList xs = false → replace_variables_in_list vars xs = xs
  | _, [], _ => by rw [replace_variables_in_list]
  | vars, x :: rest, h => by
    rw [hasPatternList, Bool.or_eq_false_iff] at h
    rw [replace_variables_in_list, replaceElem_fix vars x h.1, replace_list_fix vars rest h.2]

end

end Resolver

namespace Resolver

theorem takeWhile_append_all {α : Type} (p : α → Bool) :
    ∀ (l sfx : List α), (∀ c ∈ l, p c = true) → (sfx.head?.all fun c => !p c) = true →
      (l ++ sfx).takeWhile p = l ∧ (l ++ sfx).dropWhile p = sfx := by
  intro l
  induction l with
  | nil =>
    intro sfx _ hs
    cases sfx with
    | nil => simp
    | cons c rest =>
      simp only [Option.all_some, List.head?_cons, Bool.not_eq_true'] at hs
      simp [List.takeWhile, List.dropWhile, hs]
  | cons c rest ih =>
    intro sfx hl hs
    have hc : p c = true := hl c (by simp)
    have := ih sfx (fun d hd => hl d (by simp [hd])) hs
    simp [List.takeWhile, List.dropWhile, hc, this.1, this.2]

end Resolver

/-- Claim C7: resolver idempotence.  For every JSON-shaped value and every
variable map, if one resolution pass leaves no remaining unresolved
pattern occurrence, then resolving the already-resolved value again with
the same map yields the same value; moreover an unmatched identifier is
left verbatim by the substitution, and non-string leaves are unchanged. -/
theorem c7_resolver_idempotence (vars : List (String × String)) :
    (∀ x : Json, Resolver.hasPatternValue (Resolver.replaceElem vars x) = false →
      Resolver.replaceElem vars (Resolver.replaceElem vars x) =
        Resolver.replaceElem vars x) ∧
    (∀ name : List Char, name ≠ [] → (∀ c ∈ name, Resolver.notCloseBrace c = true) →
      Resolver.lookupVar vars (Resolver.pyStrip name) = none →
      Resolver.substChars vars ('{' :: '{' :: (name ++ '}' :: '}' :: [])) =
        '{' :: '{' :: (name ++ '}' :: '}' :: [])) ∧
    ((∀ n : Int, Resolver.replaceElem vars (.int n) = .int n) ∧
     (∀ q : Rat, Resolver.replaceElem vars (.float q) = .float q) ∧
     (∀ b : Bool, Resolver.replaceElem vars (.bool b) = .bool b) ∧
     Resolver.replaceElem vars .null = .null) := by
  refine ⟨fun x h => Resolver.replaceElem_fix vars _ h, fun name hne hall hlk => ?_, ?_⟩
  · have hsplit := Resolver.takeWhile_append_all Resolver.notCloseBrace name
      ('}' :: '}' :: []) hall (by simp [Resolver.notCloseBrace])
    have hm : Resolver.matchAt? ('{' :: '{' :: (name ++ '}' :: '}' :: [])) =
        some (name, []) := by
      rw [Resolver.matchAt?]
      simp only [hsplit.1, hsplit.2, ne_eq, hne, not_false_iff, true_and,
        List.take_succ_cons, List.take_zero, List.drop_succ_cons, List.drop_zero,
        if_true, List.drop_nil]
    rw [Resolver.substChars_cons_match vars hm, hlk, Resolver.substChars_nil,
      List.append_nil]
  · exact ⟨fun n => by simp [Resolver.replaceElem], fun q => by simp [Resolver.replaceElem],
      fun b => by simp [Resolver.replaceElem], by simp [Resolver.replaceElem]⟩

/-- Witness for claim C7 at a concrete input: the value
`name: {{ITEM}}, count: 3` under `ITEM = widget` resolves fully in one
pass, resolving twice equals resolving once, and `{{MISSING}}` with an
unbound name is left verbatim. -/
theorem c7_resolver_idempotence_witness :
    (Resolver.hasPatternValue (Resolver.replaceElem [("ITEM", "widget")]
        (Json.obj [("name", Json.str "{{ITEM}}"), ("count", Json.int 3)])) = false ∧
      Resolver.replaceElem [("ITEM", "widget")]
        (Resolver.replaceElem [("ITEM", "widget")]
          (Json.obj [("name", Json.str "{{ITEM}}"), ("count", Json.int 3)])) =
        Resolver.replaceElem [("ITEM", "widget")]
          (Json.obj [("name", Json.str "{{ITEM}}"), ("count", Json.int 3)])) ∧
    Resolver.substChars [("ITEM", "widget")]
        ('{' :: '{' :: (['M', 'I', 'S', 'S'] ++ '}' :: '}' :: [])) =
      '{' :: '{' :: (['M', 'I', 'S', 'S'] ++ '}' :: '}' :: []) := by
  constructor
  · constructor
    · simp [Resolver.replaceElem, Resolver.replace_variables_in_dict,
        Resolver.replace_variables_in_text, Resolver.substChars, Resolver.matchAt?,
        Resolver.notCloseBrace, Resolver.pyStrip, Resolver.lookupVar, String.data,
        Resolver.hasPatternValue, Resolver.hasPatternFields, Resolver.hasPatternChars]
    · exact (c7_resolver_idempotence [("ITEM", "widget")]).1 _ (by
        simp [Resolver.replaceElem, Resolver.replace_variables_in_dict,
          Resolver.replace_variables_in_text, Resolver.substChars, Resolver.matchAt?,
          Resolver.notCloseBrace, Resolver.pyStrip, Resolver.lookupVar, String.data,
          Resolver.hasPatternValue, Resolver.hasPatternFields, Resolver.hasPatternChars])
  · exact (c7_resolver_idempotence [("ITEM", "widget")]).2.1 ['M', 'I', 'S', 'S']
      (by simp) (by decide) (by simp [Resolver.lookupVar, Resolver.pyStrip])

/-! ## Expectation evaluator data model (`validator.py`)

A stored check is a dict probed by key presence; the model is a structure
with one optional field per known key (fields the evaluator never reads are
not modelled).  `present`/`absent` and the two `_...` flags are tested for
truthiness, the other keys for presence, exactly as the source does. -/

structure Check where
  path : Option Json := none
  present : Option Json := none
  absent : Option Json := none
  equals : Option Json := none
  type : Option Json := none
  regex : Option Json := none
  contains : Option Json := none
  length : Option Json := none
  gt : Option Json := none
  gte : Option Json := none
  lt : Option Json := none
  lte : Option Json := none

/-- One branch of `json.either`. -/
structure EitherBranch where
  checks : List Check := []

/-- The `json` section: `checks` plus `either` (`jexp.get(..., [])` defaults). -/
structure JsonExpect where
  checks : List Check := []
  either : List EitherBranch := []

/-- A string or a list of strings (`text_contains` accepts both). -/
inductive StrOrList where
  | one : String → StrOrList
  | many : List String → StrOrList

def StrOrList.needles : StrOrList → List String
  | .one s => [s]
  | .many l => l

/-- An expectation document as consumed by `evaluate_expect`.  Field types
follow what `validate_expected_spec` admits; a document with, say, a
non-integer `status` behaves identically up to unreachable `TypeError`
corners that no claim exercises. -/
structure Expect where
  status : Option Int := none
  status_in : Option (List Int) := none
  text_contains : Option StrOrList := none
  text_contains_any : Option StrOrList := none
  text_regex : Option String := none
  headers : Option (List (String × String)) := none
  headers_regex : Option (List (String × String)) := none
  json : Option JsonExpect := none
  mirror_http_status : Option Json := none
  require_content_for_error : Option Json := none

/-- An httpx-like response: HTTP status, body text, headers, and the result
of `resp.json()` (`none` models the parse raising). -/
structure Response where
  status_code : Int
  text : String
  headers : List (String × String)
  jsonResult : Option Json

/-- Truthiness of an optional dict entry (`if chk.get(key):`). -/
def truthyOpt : Option Json → Bool
  | none => false
  | some v => Json.pyTruthy v

/-- Truthiness of a flag read with a `True` default
(`expect.get(flag, True)`). -/
def truthyFlag : Option Json → Bool
  | none => true
  | some v => Json.pyTruthy v

/-- Python `len(val)` for JSON values; `none` models the `TypeError` the
source catches (`length check on non-sized value`). -/
def pyLen? : Json → Option Int
  | .str s => some s.length
  | .arr xs => some xs.length
  | .obj fs => some fs.length
  | _ => none

/-- Does the value match one type keyword of `_TYPE_MAP`?  `number` is
`(int, float)` and Python `bool` is a subclass of `int`, so booleans
satisfy `number` (and `boolean`); unknown keywords map to the empty
tuple. -/
def typeKindMatches (kind : String) (v : Json) : Bool :=
  if kind = "string" then (match v with | .str _ => true | _ => false)
  else if kind = "number" then
    (match v with | .int _ => true | .float _ => true | .bool _ => true | _ => false)
  else if kind = "boolean" then (match v with | .bool _ => true | _ => false)
  else if kind = "object" then (match v with | .obj _ => true | _ => false)
  else if kind = "array" then (match v with | .arr _ => true | _ => false)
  else if kind = "null" then (match v with | .null => true | _ => false)
  else false

/-- `validator._type_ok`: a single keyword is wrapped into a list; the
`_TYPE_MAP.get(k, ())` lookup raises `TypeError` on an unhashable key
(a list or dict); otherwise membership in the collected type tuples. -/
def typeOk? (v : Json) (kinds : Json) : Except PyErr Bool :=
  let ks := match kinds with | .arr l => l | k => [k]
  if ks.any (fun k => match k with | .arr _ => true | .obj _ => true | _ => false) then
    .error .typeError
  else
    .ok (ks.any (fun k => match k with | .str s => typeKindMatches s v | _ => false))

/-- Association lookup on string maps. -/
def lookupStr : List (String × String) → String → Option String
  | [], _ => none
  | (k, v) :: rest, key => if k == key then some v else lookupStr rest key

/-- Python dict assignment `d[k] = v`: update the value in place when the
key exists, append otherwise. -/
def insertAssoc (m : List (String × String)) (k v : String) : List (String × String) :=
  if (lookupStr m k).isSome then
    m.map (fun kv => if kv.1 == k then (kv.1, v) else kv)
  else m ++ [(k, v)]

/-- `validator._to_lower_headers`: rebuild the header dict with lowercased
keys (later duplicates overwrite earlier ones, as in the comprehension). -/
def to_lower_headers (hs : List (String × String)) : List (String × String) :=
  hs.foldl (fun acc kv => insertAssoc acc kv.1.toLower kv.2) []

/-- `validator._apply_check(body_json, chk, failures, prefix)`: resolve the
check's path and append one failure per failed predicate, in source order
(`absent`/`present` short-circuit, then `equals`, `type`, `regex`,
`contains`, `length`, `gt`, `gte`, `lt`, `lte`). -/
def apply_check (research : String → String → Bool) (body : Json) (chk : Check)
    (failures : List String) (pfx : String) : Except PyErr (List String) := do
  let pOpt : Option String :=
    match chk.path with
    | some (.str s) => if s = "" then none else some s
    | _ => none
  match pOpt with
  | none => return failures ++ [pfx ++ ": missing or invalid path in check"]
  | some p => do
    let val ← Json.resolve_path body p
    if truthyOpt chk.absent then
      return failures ++ (if val.isSome then [p ++ ": expected absent"] else [])
    if truthyOpt chk.present then
      return failures ++ (if val.isNone then [p ++ ": expected present"] else [])
    let fEq : List String :=
      match chk.equals with
      | none => []
      | some e =>
        match val with
        | none => [p ++ ": equals check failed"]
        | some v => if Json.pyEq v e then [] else [p ++ ": equals check failed"]
    let fTy ← (match chk.type with
      | none => pure ([] : List String)
      | some t =>
        match val with
        | none => pure [p ++ ": type check failed"]
        | some v => do
          let ok ← typeOk? v t
          pure (if ok then [] else [p ++ ": type check failed"]))
    let fRe ← (match chk.regex with
      | none => pure ([] : List String)
      | some rg =>
        match val with
        | some (.str s) =>
          (match rg with
           | .str pat => pure (if research pat s then [] else [p ++ ": regex did not match"])
           | _ => (.error .typeError : Except PyErr (List String)))
        | _ => pure [p ++ ": regex did not match"])
    let fCo : List String :=
      match chk.contains with
      | none => []
      | some ex =>
        match val with
        | none => [p ++ ": does not contain expected content"]
        | some v =>
          if Json.pyContains v ex then [] else [p ++ ": does not contain expected content"]
    let fLen : List String :=
      match chk.length with
      | none => []
      | some lv =>
        match val.bind pyLen? with
        | none => [p ++ ": length check on non-sized value"]
        | some len => if Json.pyEq (.int len) lv then [] else [p ++ ": length mismatch"]
    let numOp : Json → (Rat → Rat → Bool) → String → Except PyErr (List String) :=
      fun ref cmp msg =>
        match val.bind Json.numVal? with
        | some x =>
          (match Json.numVal? ref with
           | some r => pure (if cmp x r then [] else [p ++ msg])
           | none => .error .typeError)
        | none => pure [p ++ ": comparison requires a number"]
    let fGt ← (match chk.gt with
      | none => pure ([] : List String)
      | some r => numOp r (fun x y => x > y) ": expected greater")
    let fGte ← (match chk.gte with
      | none => pure ([] : List String)
      | some r => numOp r (fun x y => x ≥ y) ": expected greater or equal")
    let fLt ← (match chk.lt with
      | none => pure ([] : List String)
      | some r => numOp r (fun x y => x < y) ": expected less")
    let fLte ← (match chk.lte with
      | none => pure ([] : List String)
      | some r => numOp r (fun x y => x ≤ y) ": expected less or equal")
    return failures ++ fEq ++ fTy ++ fRe ++ fCo ++ fLen ++ fGt ++ fGte ++ fLt ++ fLte

/-- Apply a list of checks in order, threading the failure list. -/
def applyChecksAll (research : String → String → Bool) (body : Json) (pfx : String) :
    List Check → List String → Except PyErr (List String)
  | [], fs => .ok fs
  | c :: rest, fs => do
    let fs2 ← apply_check research body c fs pfx
    applyChecksAll research body pfx rest fs2

/-- Render the failing branches' reason lists into the single
`json.either` failure string (the source interpolates the Python repr of
the list of lists; the rendering is abridged but still a function of
exactly those reasons). -/
def renderReasons (reasons : List (List String)) : String :=
  String.intercalate " | " (reasons.map (String.intercalate "; "))

/-- The `either` loop of `evaluate_expect`: evaluate branches in order
against a fresh local failure list; stop at the first branch with no local
failures (`any_ok`, result `none`); otherwise collect every branch's
reasons (result `some reasons`). -/
def eitherLoop (research : String → String → Bool) (body : Json) :
    List EitherBranch → Except PyErr (Option (List (List String)))
  | [] => .ok (some [])
  | br :: rest => do
    let lfs ← applyChecksAll research body "json.either" br.checks []
    if lfs.isEmpty then
      return none
    else
      match ← eitherLoop research body rest with
      | none => return none
      | some reasons => return some (lfs :: reasons)

/-- The `json` section of `evaluate_expect`: when the spec has a `json`
key, parse the body (one failure when parsing raises); a parsed JSON
`null` leaves `body_json` as Python `None` exactly like the parse failure,
but silently.  With a parsed body, run `checks`, then the `either`
branches (a single failure carrying all branch reasons when none
matched).  Returns the `body_json` value visible to the later safeguards
together with the failures contributed so far. -/
def jsonSection (research : String → String → Bool) (resp : Response) (expect : Expect) :
    Except PyErr (Option Json × List String) :=
  match expect.json with
  | none => .ok (none, [])
  | some jx =>
    match resp.jsonResult with
    | none => .ok (none, ["json: response is not JSON"])
    | some parsed =>
      match parsed with
      | .null => .ok (none, [])
      | body => do
        let f1 ← applyChecksAll research body "json" jx.checks []
        match jx.either with
        | [] => return (some body, f1)
        | branches =>
          match ← eitherLoop research body branches with
          | none => return (some body, f1)
          | some reasons =>
            return (some body, f1 ++ ["json.either: none matched. Reasons: " ++
              renderReasons reasons])

/-- `validator._has_response_code_assert`: does any check (plain or inside
an `either` branch) assert `equals` on the exact path `response_code`? -/
def checkAssertsResponseCode (c : Check) : Bool :=
  (match c.path with
   | some (.str s) => s == "response_code"
   | _ => false) && c.equals.isSome

def has_response_code_assert (e : Expect) : Bool :=
  match e.json with
  | none => false
  | some jx =>
    jx.checks.any checkAssertsResponseCode ||
      jx.either.any (fun br => br.checks.any checkAssertsResponseCode)

/-- The failure string of the mirror-status safeguard. -/
def mirrorFailure (statusCode : Int) : String :=
  "json.response_code: expected mirror of HTTP " ++ toString statusCode

/-- `validator.evaluate_expect(resp, expect)`: status, text, header and
JSON checks in source order, then the two safeguards; `ok` is `failures
== []`. -/
def evaluate_expect (research : String → String → Bool) (resp : Response)
    (expect : Expect) : Except PyErr (Bool × List String) := do
  let sf : List String :=
    match expect.status_in with
    | some allowed =>
      if allowed.contains resp.status_code then [] else ["status: not in allowed list"]
    | none =>
      match expect.status with
      | some st => if resp.status_code = st then [] else ["status: mismatch"]
      | none => []
  let bodyText := resp.text
  let tcf : List String :=
    match expect.text_contains with
    | none => []
    | some sel =>
      ((sel.needles).map (fun s =>
        if Json.pyInStr s bodyText then [] else ["text_contains: needle not found"])).flatten
  let tcaf : List String :=
    match expect.text_contains_any with
    | none => []
    | some sel =>
      if (sel.needles).any (fun s => Json.pyInStr s bodyText) then []
      else ["text_contains_any: none matched"]
  let trf : List String :=
    match expect.text_regex with
    | none => []
    | some tre => if research tre bodyText then [] else ["text_regex: pattern not found"]
  let lowHdrs := to_lower_headers resp.headers
  let hf : List String :=
    ((expect.headers.getD []).map (fun kv =>
      match lookupStr lowHdrs kv.1.toLower with
      | none => ["header missing: " ++ kv.1]
      | some av => if av == kv.2 then [] else ["header mismatch: " ++ kv.1])).flatten
  let hrf : List String :=
    ((expect.headers_regex.getD []).map (fun kv =>
      match lookupStr lowHdrs kv.1.toLower with
      | none => ["header regex mismatch: " ++ kv.1]
      | some av =>
        if research kv.2 av then [] else ["header regex mismatch: " ++ kv.1])).flatten
  let (bodyJson, jf) ← jsonSection research resp expect
  let mf : List String :=
    if truthyFlag expect.mirror_http_status then
      match bodyJson with
      | some (.obj fields) =>
        match Json.lookupField fields "response_code" with
        | some rc =>
          if has_response_code_assert expect then []
          else if Json.pyEq rc (.int resp.status_code) then []
          else [mirrorFailure resp.status_code]
        | none => []
      | _ => []
    else []
  let ef : List String :=
    if truthyFlag expect.require_content_for_error ∧
        400 ≤ resp.status_code ∧ resp.status_code ≤ 599 then
      if expect.text_contains.isSome ∨ expect.text_contains_any.isSome ∨
          expect.text_regex.isSome ∨ expect.json.isSome then []
      else ["error response without any content assertion"]
    else []
  let failures := sf ++ tcf ++ tcaf ++ trf ++ hf ++ hrf ++ jf ++ mf ++ ef
  return (failures.isEmpty, failures)

/-! ## Shape validator (`validator.validate_expected_spec`)

Operates on the raw stored document (`Json`), since its whole point is to
reject malformed input.  `re.compile` success is the `recompile` oracle.
The source has two reachable raises, both uncaught `TypeError`s: a
non-string value inside a `headers_regex` dict reaches `re.compile` (only
`re.error` is caught), and an unhashable element (a list or a dict) inside
a `type` list reaches set membership in the comprehension
`[x for x in t if x not in allowed]`; everything else is total. -/

/-- Python `isinstance(v, int)`: true for ints and booleans. -/
def pyIsInt : Json → Bool
  | .int _ => true
  | .bool _ => true
  | _ => false

/-- Python `isinstance(v, (int, float))`: ints, floats and booleans. -/
def pyIsNum : Json → Bool
  | .int _ => true
  | .float _ => true
  | .bool _ => true
  | _ => false

/-- The integer value of an `isinstance(-, int)` value. -/
def pyIntValue : Json → Int
  | .int n => n
  | .bool b => if b then 1 else 0
  | _ => 0

/-- `allowed = set(_TYPE_MAP.keys())`: the valid `type` keywords. -/
def allowedKinds : List String := ["string", "number", "boolean", "object", "array", "null"]

/-- The comprehension `bad = [x for x in t if x not in allowed]` over a
`type` list: `allowed` is a set, so the membership test raises `TypeError`
on an unhashable element (a list or a dict, uncaught in the source); a
hashable element is collected iff it is not a valid keyword string. -/
def typeBadElems : List Json → Except PyErr (List Json)
  | [] => .ok []
  | .arr _ :: _ => .error .typeError
  | .obj _ :: _ => .error .typeError
  | .str s :: rest => do
    let bad ← typeBadElems rest
    .ok (if allowedKinds.contains s then bad else .str s :: bad)
  | x :: rest => do
    let bad ← typeBadElems rest
    .ok (x :: bad)

/-- `validator._validate_one_check(chk, errs, where)`: shape rules for one
check object, in source order.  A `type` list holding an unhashable
element raises out of the comprehension. -/
def validate_one_check (recompile : String → Bool) (chk : Json) (loc : String) :
    Except PyErr (List String) :=
  match chk with
  | .obj fields => do
    let e1 :=
      match Json.lookupField fields "path" with
      | some (.str s) => if s = "" then [loc ++ ".path: required string"] else []
      | some _ => [loc ++ ".path: required string"]
      | none => [loc ++ ".path: required string"]
    let preds := ["equals", "present", "absent", "regex", "contains", "length", "type",
      "gt", "gte", "lt", "lte"]
    let e2 := if preds.any (fun p => Json.hasField fields p) then []
      else [loc ++ ": must contain at least one predicate"]
    let e3 :=
      match Json.lookupField fields "length" with
      | none => []
      | some lv =>
        if pyIsInt lv ∧ 0 ≤ pyIntValue lv then []
        else [loc ++ ".length: must be non-negative integer"]
    let e4 :=
      match Json.lookupField fields "regex" with
      | none => []
      | some (.str rg) => if recompile rg then [] else [loc ++ ".regex: invalid regex"]
      | some _ => [loc ++ ".regex: must be string"]
    let e5 ←
      match Json.lookupField fields "type" with
      | none => (.ok [] : Except PyErr (List String))
      | some (.str t) =>
        .ok (if allowedKinds.contains t then [] else [loc ++ ".type: invalid type keyword"])
      | some (.arr l) => do
        let bad ← typeBadElems l
        .ok (if bad.isEmpty then [] else [loc ++ ".type: invalid type keyword"])
      | some _ => .ok [loc ++ ".type: must be string or list of strings"]
    let e6 := ((["gt", "gte", "lt", "lte"]).map (fun op =>
      match Json.lookupField fields op with
      | none => []
      | some v => if pyIsNum v then [] else [loc ++ "." ++ op ++ ": must be number"])).flatten
    .ok (e1 ++ e2 ++ e3 ++ e4 ++ e5 ++ e6)
  | _ => .ok [loc ++ ": must be object"]

/-- The loop `for chk in ch: _validate_one_check(chk, errs, ...)`: errors
accumulate in order, the first raise propagates. -/
def validateChecks (recompile : String → Bool) (loc : String) :
    List Json → Except PyErr (List String)
  | [] => .ok []
  | c :: rest => do
    let e ← validate_one_check recompile c loc
    let es ← validateChecks recompile loc rest
    .ok (e ++ es)

/-- The value-compiling pass over a `headers_regex` dict: each string value
goes through `re.compile` (oracle), and a non-string value makes
`re.compile` raise `TypeError`, which the `except re.error` clause does not
catch. -/
def compileHeaderPatterns (recompile : String → Bool) :
    List (String × Json) → Except PyErr (List String)
  | [] => .ok []
  | (k, pat) :: rest =>
    match pat with
    | .str s => do
      let es ← compileHeaderPatterns recompile rest
      .ok ((if recompile s then [] else ["expected.headers_regex: invalid regex for key " ++ k]) ++ es)
    | _ => .error .typeError

/-- Is the value a string or a list of strings? -/
def strOrListOfStr : Json → Bool
  | .str _ => true
  | .arr l => l.all (fun x => match x with | .str _ => true | _ => false)
  | _ => false

/-- Is the value a dict with only string values?  (Stored JSON objects
always have string keys, so the `isinstance(k, str)` half never fails in
the model.) -/
def strStrDict : Json → Bool
  | .obj hs => hs.all (fun kv => match kv.2 with | .str _ => true | _ => false)
  | _ => false

/-- The status section of the shape validator: the `status`/`status_in`
exclusivity error, then the `status` shape error, then the `status_in`
shape/range errors, in source order. -/
def statusErrs (fields : List (String × Json)) : List String :=
  (if Json.hasField fields "status" && Json.hasField fields "status_in" then
    ["expected: use only one of status or status_in"]
  else []) ++
  (match Json.lookupField fields "status" with
   | none => []
   | some st =>
     if pyIsInt st ∧ 100 ≤ pyIntValue st ∧ pyIntValue st ≤ 599 then []
     else ["expected.status: must be integer 100..599"]) ++
  (match Json.lookupField fields "status_in" with
   | none => []
   | some si =>
     match si with
     | .arr l =>
       if !l.isEmpty ∧ l.all pyIsInt then
         (if (l.filter (fun x =>
             decide (pyIntValue x < 100 ∨ 599 < pyIntValue x))).isEmpty then []
          else ["expected.status_in: invalid HTTP codes"])
       else ["expected.status_in: must be a non-empty list of integers"]
     | _ => ["expected.status_in: must be a non-empty list of integers"])

/-- The `text_contains`/`text_contains_any`/`text_regex` section. -/
def textErrs (recompile : String → Bool) (fields : List (String × Json)) : List String :=
  (match Json.lookupField fields "text_contains" with
   | none => []
   | some tc => if strOrListOfStr tc then []
     else ["expected.text_contains: must be string or list of strings"]) ++
  (match Json.lookupField fields "text_contains_any" with
   | none => []
   | some tca => if strOrListOfStr tca then []
     else ["expected.text_contains_any: must be string or list of strings"]) ++
  (match Json.lookupField fields "text_regex" with
   | none => []
   | some (.str tre) => if recompile tre then [] else ["expected.text_regex: invalid regex"]
   | some _ => ["expected.text_regex: must be string"])

/-- The exact-headers shape error. -/
def headersExactErrs (fields : List (String × Json)) : List String :=
  match Json.lookupField fields "headers" with
  | none => []
  | some v => if strStrDict v then []
    else ["expected.headers: must be object of string keys to string values"]

/-- The loop over `either` branches: each branch must be an object with a
non-empty `checks` list, whose checks are then shape-validated in order. -/
def validateBranches (recompile : String → Bool) :
    List Json → Except PyErr (List String)
  | [] => .ok []
  | br :: rest => do
    let e ←
      match br with
      | .obj brf =>
        match Json.lookupField brf "checks" with
        | some (.arr brch) =>
          if brch.isEmpty then
            (.ok ["expected.json.either.checks: must be non-empty list"] :
              Except PyErr (List String))
          else validateChecks recompile "expected.json.either.checks" brch
        | _ => .ok ["expected.json.either.checks: must be non-empty list"]
      | _ => .ok ["expected.json.either: branch must be object"]
    let es ← validateBranches recompile rest
    .ok (e ++ es)

/-- The `json.checks` / `json.either` section. -/
def jsonErrs (recompile : String → Bool) (fields : List (String × Json)) :
    Except PyErr (List String) :=
  match Json.lookupField fields "json" with
  | none => .ok []
  | some (.obj j) => do
    let ec ←
      match Json.lookupField j "checks" with
      | none => (.ok [] : Except PyErr (List String))
      | some (.arr ch) => validateChecks recompile "expected.json.checks" ch
      | some _ => .ok ["expected.json.checks: must be list"]
    let ee ←
      match Json.lookupField j "either" with
      | none => (.ok [] : Except PyErr (List String))
      | some (.arr et) =>
        if et.isEmpty then .ok ["expected.json.either: must be non-empty list"]
        else validateBranches recompile et
      | some _ => .ok ["expected.json.either: must be non-empty list"]
    .ok (ec ++ ee)
  | some _ => .ok ["expected.json: must be object"]

/-- The boolean-flags section. -/
def flagErrs (fields : List (String × Json)) : List String :=
  ((["_mirror_http_status", "_require_content_for_error"]).map (fun f =>
    match Json.lookupField fields f with
    | none => []
    | some (.bool _) => []
    | some _ => ["expected." ++ f ++ ": must be boolean"])).flatten

/-- `validator.validate_expected_spec(expect)`: the pre-storage shape
check.  Returns `(ok, errors)` with `ok` iff no error was collected; a
`headers_regex` dict with a non-string value, or a `type` list with an
unhashable element, raises. -/
def validate_expected_spec (recompile : String → Bool) (expect : Json) :
    Except PyErr (Bool × List String) :=
  match expect with
  | .obj fields =>
    match Json.lookupField fields "headers_regex" with
    | none => do
      let jf ← jsonErrs recompile fields
      let errs := statusErrs fields ++ textErrs recompile fields ++
        headersExactErrs fields ++ jf ++ flagErrs fields
      .ok (errs.isEmpty, errs)
    | some v => do
      let eHRshape :=
        if strStrDict v then []
        else ["expected.headers_regex: must be object of string keys to string values"]
      let eHRcomp ←
        match v with
        | .obj hs => compileHeaderPatterns recompile hs
        | _ => .ok []
      let jf ← jsonErrs recompile fields
      let errs := statusErrs fields ++ textErrs recompile fields ++
        headersExactErrs fields ++ eHRshape ++ eHRcomp ++ jf ++ flagErrs fields
      .ok (errs.isEmpty, errs)
  | _ => .ok (false, ["expected: must be an object"])

/-! ## Header inheritance merger (`config.merge_headers_with_priority`) -/

namespace Config

/-- One entry of the `folder_path` list (root first, leaf last). -/
structure FolderInfo where
  id : Int
  name : String

/-- One entry of `headers_map`: the claim-relevant `content` dict. -/
structure HeaderData where
  content : List (String × Json)

/-- Contribution trail entry: which keys a folder added or overrode
(key, old value, new value for overrides). -/
structure FolderContribution where
  folder_id : Int
  folder_name : String
  headers_added : List (String × Json)
  headers_overridden : List (String × (Json × Json))

def lookupHM : List (Int × HeaderData) → Int → Option HeaderData
  | [], _ => none
  | (i, hd) :: rest, key => if i = key then some hd else lookupHM rest key

/-- Python dict assignment `merged[k] = v` on a Json-valued dict. -/
def insertField (m : List (String × Json)) (k : String) (v : Json) :
    List (String × Json) :=
  if (Json.lookupField m k).isSome then
    m.map (fun kv => if kv.1 == k then (kv.1, v) else kv)
  else m ++ [(k, v)]

/-- The inner `for key, value in header_content.items()` loop: thread the
merged dict through the items, recording added and overridden keys in item
order. -/
def processContent : List (String × Json) → List (String × Json) →
    List (String × Json) × List (String × Json) × List (String × (Json × Json))
  | [], merged => (merged, [], [])
  | (k, v) :: rest, merged =>
    match Json.lookupField merged k with
    | some old =>
      let (m2, ad, ov) := processContent rest (insertField merged k v)
      (m2, ad, (k, (old, v)) :: ov)
    | none =>
      let (m2, ad, ov) := processContent rest (insertField merged k v)
      (m2, (k, v) :: ad, ov)

/-- The result of `merge_headers_with_priority`. -/
structure MergeResult where
  merged_headers : List (String × Json)
  inheritance_info : List FolderContribution

/-- The outer folder loop: root-to-leaf over `folder_path`, folders absent
from `headers_map` contribute nothing, and a contribution record is kept
only when the folder added or overrode at least one key. -/
def mergeFold (hm : List (Int × HeaderData)) :
    List FolderInfo → List (String × Json) → MergeResult
  | [], merged => ⟨merged, []⟩
  | f :: rest, merged =>
    match lookupHM hm f.id with
    | none => mergeFold hm rest merged
    | some hd =>
      let (m2, ad, ov) := processContent hd.content merged
      let tailRes := mergeFold hm rest m2
      if ad.isEmpty && ov.isEmpty then tailRes
      else ⟨tailRes.merged_headers, ⟨f.id, f.name, ad, ov⟩ :: tailRes.inheritance_info⟩

/-- `config.merge_headers_with_priority(folder_path, headers_map)`. -/
def merge_headers_with_priority (fp : List FolderInfo) (hm : List (Int × HeaderData)) :
    MergeResult :=
  mergeFold hm fp []

/-- The ancestor-to-descendant sequence of contribution maps the merge
actually folds: the `content` of each folder that has headers, in path
order. -/
def contributions (fp : List FolderInfo) (hm : List (Int × HeaderData)) :
    List (List (String × Json)) :=
  fp.filterMap (fun f => (lookupHM hm f.id).map (·.content))

/-- Specification-side reading (from the spec's words): the value a key
gets is the one from the last (most specific) contribution map that
contains it, where within one map the last occurrence of a key wins (a
Python dict literal keeps the last duplicate). -/
def lastBinding (ms : List (List (String × Json))) (k : String) : Option Json :=
  ms.reverse.findSome? (fun m => Json.lookupField m.reverse k)

end Config

/-! ## Batch runner (`runner._run_case` / `runner.run_tests`) -/

namespace Runner

/-- Connection-level errors httpx can raise (`ConnectError` is a subclass
of `RequestError`; `TimeoutException` of same — the except-clause order in
the source never depends on the hierarchy for these claims). -/
inductive TransportError where
  | connectError : String → TransportError
  | timeout : String → TransportError
  | requestError : String → TransportError
deriving DecidableEq

/-- What escapes `_run_case`: the source wraps neither the HTTP call nor
`evaluate_expect` in a try/except, so both kinds of exception propagate
out of the coroutine. -/
inductive RunError where
  | transport : TransportError → RunError
  | pyRaise : PyErr → RunError
deriving DecidableEq

/-- The claim-relevant slice of one test case. -/
structure Case where
  name : String
  expect : Expect

/-- The claim-relevant slice of the per-case result dict built at the end
of `_run_case`. -/
structure CaseResult where
  case_name : String
  ok : Bool
  failures : List String
  status_code : Int

/-- `runner._run_case`, with the HTTP call abstracted to its outcome: the
source dispatches `client.get/post/...` with no try/except, so a transport
error propagates; on a response it evaluates the expectation (whose own
exceptions also propagate) and builds the result dict. -/
def run_case (research : String → String → Bool)
    (call : Except TransportError Response) (c : Case) : Except RunError CaseResult :=
  match call with
  | .error e => .error (.transport e)
  | .ok resp =>
    match evaluate_expect research resp c.expect with
    | .error pe => .error (.pyRaise pe)
    | .ok (ok, failures) => .ok ⟨c.name, ok, failures, resp.status_code⟩

/-- `asyncio.gather(*tasks)` without `return_exceptions=True`: when every
task returns, the list of results; when any task raises, the exception is
re-raised to the awaiter and no result list is produced (modelled as the
first failing task in list order). -/
def gather {e a : Type} : List (Except e a) → Except e (List a)
  | [] => .ok []
  | x :: rest =>
    match x with
    | .error err => .error err
    | .ok v =>
      match gather rest with
      | .error err => .error err
      | .ok vs => .ok (v :: vs)

/-- `runner.run_tests` over already-discovered cases, each paired with its
HTTP call outcome: every case becomes a task and the results are collected
with `asyncio.gather`. -/
def run_tests (research : String → String → Bool)
    (cases : List (Case × Except TransportError Response)) :
    Except RunError (List CaseResult) :=
  gather (cases.map (fun cc => run_case research cc.2 cc.1))

end Runner

/-! ## Direct executor (`routers/runner/execute_direct.py`) -/

namespace ExecuteDirect

/-- Python `s.replace(old, new)` on character lists, fuel-bounded by the
haystack length (each step consumes at least one character, so
`l.length` fuel always suffices). -/
def replaceAllF (pat rep : List Char) : Nat → List Char → List Char
  | 0, rest => rest
  | _, [] => []
  | n + 1, c :: rest =>
    if pat ≠ [] ∧ pat.isPrefixOf (c :: rest) then
      rep ++ replaceAllF pat rep n ((c :: rest).drop pat.length)
    else c :: replaceAllF pat rep n rest

/-- Python `url.replace(old, new)`: replace every occurrence. -/
def pyReplace (s old new : String) : String :=
  String.mk (replaceAllF old.data new.data s.data.length s.data)

/-- Remove duplicates preserving first-occurrence order (the
`seen`/`unique_urls` loop at the end of `resolve_docker_url`). -/
def dedupAux : List String → List String → List String
  | [], _ => []
  | u :: rest, seen =>
    if seen.contains u then dedupAux rest seen else u :: dedupAux rest (u :: seen)

def dedupFO (l : List String) : List String := dedupAux l []

/-- `execute_direct.resolve_docker_url(url)`: the original URL first, then
the Docker alternates when the URL mentions `localhost` (including the
`localhost:8003` service mapping and the optional `DOCKER_HOST_IP`
override), with duplicates removed preserving order. -/
def resolve_docker_url (url : String) (dockerHostIp : Option String) : List String :=
  let alternative_urls :=
    [url] ++
      (if Json.pyInStr "localhost" url then
        [pyReplace url "localhost" "host.docker.internal",
         pyReplace url "localhost" "172.17.0.1",
         pyReplace url "localhost" "127.0.0.1"] ++
          (if Json.pyInStr "localhost:8003" url then
            [pyReplace url "localhost:8003" "mes_dashboard_dev:8000"]
          else []) ++
          (match dockerHostIp with
           | some d => [pyReplace url "localhost" d]
           | none => [])
      else [])
  dedupFO alternative_urls

/-- The data dict of the success envelope (claim-relevant fields).  The
source records `"resolved_url": final_url` — the URL before the Docker
alternates were tried. -/
structure ExecData where
  status_code : Int
  text : String
  resolved_url : String
deriving DecidableEq

/-- Outcome of `execute_api_direct`'s call section: the success envelope,
the structured transport-failure envelope from the
`except (ConnectError, TimeoutException, RequestError)` handler, or the
`NameError` crash when the loop ends with no attempt and no error (requires
an empty candidate list, which never happens). -/
inductive ExecOutcome where
  | success : ExecData → ExecOutcome
  | transportFailure : Int → String → ExecOutcome
  | nameErrorCrash : ExecOutcome
deriving DecidableEq

/-- `utils.handle_http_error` / `utils.ExceptionHandler` on the transport
errors: ConnectError becomes a 502 connection-failure envelope, timeout
408, other request errors 502 — a failure kind distinct from any
assertion failure (which lives inside a success result's failure list). -/
def handle_http_error : Runner.TransportError → ExecOutcome
  | .connectError _ => .transportFailure 502 "Connection failed"
  | .timeout _ => .transportFailure 408 "Request timeout"
  | .requestError _ => .transportFailure 502 "Request failed"

/-- The `for attempt_url in alternative_urls` loop: try candidates in
order, keep the last error, break on the first response. -/
def attemptUrls (f : String → Except Runner.TransportError Response) :
    List String → Option Runner.TransportError →
      Except (Option Runner.TransportError) (String × Response)
  | [], le => .error le
  | u :: rest, _ =>
    match f u with
    | .ok r => .ok (u, r)
    | .error e => attemptUrls f rest (some e)

/-- The call section of `execute_api_direct` (steps 6-8 plus the transport
except-clause), with the HTTP client abstracted to `f`: build the
candidate list, attempt in order, and either return the success envelope
(whose `resolved_url` is the original `final_url`) or re-raise the last
error into the transport-failure envelope. -/
def execute_api_direct_call (f : String → Except Runner.TransportError Response)
    (final_url : String) (dockerHostIp : Option String) : ExecOutcome :=
  let alternative_urls := resolve_docker_url final_url dockerHostIp
  match attemptUrls f alternative_urls none with
  | .ok (_, response) => .success ⟨response.status_code, response.text, final_url⟩
  | .error (some e) => handle_http_error e
  | .error none => .nameErrorCrash

end ExecuteDirect

/-! ## Claim theorems -/

/-- Claim C10: the evaluator classifies JSON booleans as numbers.  A check
`{path, type: "number"}` accepts a boolean value at the path, and the
`gt`/`gte`/`lt`/`lte` comparisons accept booleans as 1/0 instead of
rejecting them as non-numeric, even though `boolean` is a separate type
keyword.  (Python `bool` is a subclass of `int`, so every
`isinstance(val, (int, float))` probe in `_apply_check`/`_type_ok`
accepts it.) -/
theorem c10_boolean_counts_as_number (research : String → String → Bool)
    (b : Bool) (r : Rat) :
    typeOk? (.bool b) (.str "number") = .ok true ∧
    typeOk? (.bool b) (.str "boolean") = .ok true ∧
    apply_check research (.obj [("n", .bool b)])
      { path := some (.str "n"), type := some (.str "number") } [] "json" = .ok [] ∧
    apply_check research (.obj [("n", .bool true)])
      { path := some (.str "n"), gt := some (.float r) } [] "json" =
      .ok (if (1 : Rat) > r then [] else ["n: expected greater"]) ∧
    apply_check research (.obj [("n", .bool false)])
      { path := some (.str "n"), lt := some (.float r) } [] "json" =
      .ok (if (0 : Rat) < r then [] else ["n: expected less"]) := by
  refine ⟨by simp [typeOk?, typeKindMatches], by simp [typeOk?, typeKindMatches], ?_, ?_, ?_⟩ <;>
    simp [apply_check, Json.resolve_path, Json.pathParts, Json.convBrackets, Json.splitDot,
      Json.resolveSegs, Json.lookupFieldChars, typeOk?, typeKindMatches, truthyOpt,
      Json.numVal?, Json.pyTruthy, String.data, pure, Except.pure, bind, Except.bind,
      Option.bind]

/-- Claim C2 (code_bug evidence): batch isolation fails for transport
errors.  `_run_case` wraps the HTTP dispatch in no try/except and
`run_tests` collects with `asyncio.gather` without `return_exceptions`, so
one case's connection error aborts the whole batch: the run raises and
returns zero results instead of one result per submitted case (first
conjunct).  Assertion failures, by contrast, are captured in the failing
case's own result and every case still yields a result (second
conjunct). -/
theorem c2_transport_error_aborts_batch :
    (Runner.run_tests (fun _ _ => false)
      [(⟨"case-1", {}⟩, .error (.connectError "connection refused")),
       (⟨"case-2", {}⟩, .ok ⟨200, "", [], none⟩)] =
      .error (.transport (.connectError "connection refused"))) ∧
    (Runner.run_tests (fun _ _ => false)
      [(⟨"case-1", { status := some 201 }⟩, .ok ⟨200, "", [], none⟩),
       (⟨"case-2", {}⟩, .ok ⟨200, "", [], none⟩)] =
      .ok [⟨"case-1", false, ["status: mismatch"], 200⟩, ⟨"case-2", true, [], 200⟩]) :=
  ⟨rfl, rfl⟩

namespace Config

theorem lookupField_append (l1 l2 : List (String × Json)) (k : String) :
    Json.lookupField (l1 ++ l2) k =
      match Json.lookupField l1 k with
      | some v => some v
      | none => Json.lookupField l2 k := by
  induction l1 with
  | nil => simp [Json.lookupField]
  | cons a rest ih =>
    rw [List.cons_append, Json.lookupField, Json.lookupField]
    split <;> simp [ih]

theorem lookupField_map_ne (rest : List (String × Json)) (k k' : String) (v : Json)
    (h : k' ≠ k) :
    Json.lookupField (rest.map (fun kv => if kv.1 == k then (kv.1, v) else kv)) k' =
      Json.lookupField rest k' := by
  induction rest with
  | nil => simp [Json.lookupField]
  | cons a tl ih =>
    simp only [List.map_cons]
    by_cases hak : a.1 = k
    · have hhead : (if (a.1 == k) = true then (a.1, v) else a) = (a.1, v) := by
        rw [(by simpa using hak : (a.1 == k) = true)]
        simp
      rw [hhead]
      by_cases hk2 : a.1 = k'
      · exact absurd (hk2.symm.trans hak) h
      · rw [Json.lookupField, Json.lookupField, if_neg (by simpa using hk2),
          if_neg (by simpa using hk2)]
        exact ih
    · have hhead : (if (a.1 == k) = true then (a.1, v) else a) = a := by
        rw [(by simpa using hak : (a.1 == k) = false)]
        simp
      rw [hhead]
      by_cases hk2 : a.1 = k'
      · rw [Json.lookupField, Json.lookupField, if_pos (by simpa using hk2),
          if_pos (by simpa using hk2)]
      · rw [Json.lookupField, Json.lookupField, if_neg (by simpa using hk2),
          if_neg (by simpa using hk2)]
        exact ih

theorem lookupField_map_eq (m : List (String × Json)) (k : String) (v : Json)
    (hsome : (Json.lookupField m k).isSome) :
    Json.lookupField (m.map (fun kv => if kv.1 == k then (kv.1, v) else kv)) k = some v := by
  induction m with
  | nil => simp [Json.lookupField] at hsome
  | cons a tl ih =>
    by_cases hak : a.1 = k
    · have hb : (a.1 == k) = true := by simpa using hak
      simp only [List.map_cons]
      have hhead : (if (a.1 == k) = true then (a.1, v) else a) = (a.1, v) := by
        rw [hb]
        simp
      rw [hhead, Json.lookupField, if_pos (by simpa using hak)]
    · rw [Json.lookupField, if_neg (by simpa using hak)] at hsome
      have hb : (a.1 == k) = false := by simpa using hak
      simp only [List.map_cons]
      have hhead : (if (a.1 == k) = true then (a.1, v) else a) = a := by
        rw [hb]
        simp
      rw [hhead, Json.lookupField, if_neg (by simpa using hak)]
      exact ih hsome

theorem lookupField_insertField (m : List (String × Json)) (k k' : String) (v : Json) :
    Json.lookupField (insertField m k v) k' =
      if k' = k then some v else Json.lookupField m k' := by
  unfold insertField
  split
  · rename_i hsome
    by_cases hk : k' = k
    · subst hk
      rw [if_pos rfl]
      exact lookupField_map_eq m k' v hsome
    · rw [if_neg hk]
      exact lookupField_map_ne m k k' v hk
  · rename_i hnone
    rw [lookupField_append]
    by_cases hk : k' = k
    · subst hk
      have hmn : Json.lookupField m k' = none := by
        cases he : Json.lookupField m k' with
        | none => rfl
        | some w => rw [he] at hnone; simp at hnone
      simp [hmn, Json.lookupField]
    · rw [if_neg hk]
      split
      · rename_i w hw
        exact hw.symm
      · rename_i hw
        simp [Json.lookupField, Ne.symm hk, hw]

end Config

namespace Config

theorem processContent_lookup (content : List (String × Json)) :
    ∀ (merged : List (String × Json)) (k' : String),
      Json.lookupField (processContent content merged).1 k' =
        match Json.lookupField content.reverse k' with
        | some v => some v
        | none => Json.lookupField merged k' := by
  induction content with
  | nil => intro merged k'; simp [processContent, Json.lookupField]
  | cons a rest ih =>
    intro merged k'
    have hfst : (processContent (a :: rest) merged).1 =
        (processContent rest (insertField merged a.1 a.2)).1 := by
      rw [show (a :: rest) = ((a.1, a.2) :: rest) from by simp]
      rw [processContent]
      split <;> simp
    rw [hfst, ih]
    rw [List.reverse_cons, lookupField_append]
    cases hres : Json.lookupField rest.reverse k' with
    | some w => simp
    | none =>
      simp only []
      rw [lookupField_insertField]
      by_cases hk : k' = a.1
      · rw [if_pos hk]
        rw [Json.lookupField, if_pos (by simpa using hk.symm)]
      · rw [if_neg hk]
        rw [Json.lookupField, if_neg (by simpa using fun he => hk he.symm), Json.lookupField]

theorem lastBinding_cons (c : List (String × Json)) (ms : List (List (String × Json)))
    (k : String) :
    lastBinding (c :: ms) k =
      match lastBinding ms k with
      | some v => some v
      | none => Json.lookupField c.reverse k := by
  unfold lastBinding
  rw [List.reverse_cons, List.findSome?_append]
  cases h : ms.reverse.findSome? (fun m => Json.lookupField m.reverse k) <;>
    simp [List.findSome?, h] <;>
    cases Json.lookupField c.reverse k <;> rfl

theorem mergeFold_lookup (hm : List (Int × HeaderData)) :
    ∀ (fp : List FolderInfo) (merged : List (String × Json)) (k' : String),
      Json.lookupField (mergeFold hm fp merged).merged_headers k' =
        match lastBinding (contributions fp hm) k' with
        | some v => some v
        | none => Json.lookupField merged k' := by
  intro fp
  induction fp with
  | nil => intro merged k'; simp [mergeFold, contributions, lastBinding, List.findSome?]
  | cons f rest ih =>
    intro merged k'
    cases hlk : lookupHM hm f.id with
    | none =>
      have hcontrib : contributions (f :: rest) hm = contributions rest hm := by
        simp [contributions, hlk]
      rw [show mergeFold hm (f :: rest) merged = mergeFold hm rest merged from by
        rw [mergeFold, hlk]]
      rw [hcontrib]
      exact ih merged k'
    | some hd =>
      have hcontrib : contributions (f :: rest) hm = hd.content :: contributions rest hm := by
        simp [contributions, hlk]
      have hmh : (mergeFold hm (f :: rest) merged).merged_headers =
          (mergeFold hm rest (processContent hd.content merged).1).merged_headers := by
        rw [mergeFold, hlk]
        simp only []
        split <;> simp
      rw [hmh, ih, hcontrib, lastBinding_cons, processContent_lookup]
      cases h1 : lastBinding (contributions rest hm) k' <;>
        cases h2 : Json.lookupField hd.content.reverse k' <;> simp

/-- Claim C9: merge override semantics.  For every ancestor-to-descendant
folder path and header map, the merged dict binds each key to the value
from the last (most specific) contribution map that contains it (with no
contribution the key is absent); merging an empty sequence yields an empty
map; and concretely merging `A = (k, 1)` then `B = (k, 2)` gives `k = 2`
while merging `A = (k, 1)` then `B = ()` gives `k = 1`. -/
theorem c9_merge_override (fp : List Config.FolderInfo)
    (hm : List (Int × Config.HeaderData)) (k : String) :
    (Json.lookupField (Config.merge_headers_with_priority fp hm).merged_headers k =
      Config.lastBinding (Config.contributions fp hm) k) ∧
    (Config.merge_headers_with_priority [] hm).merged_headers = [] ∧
    (Config.merge_headers_with_priority [⟨1, "A"⟩, ⟨2, "B"⟩]
      [(1, ⟨[("k", Json.int 1)]⟩), (2, ⟨[("k", Json.int 2)]⟩)]).merged_headers =
      [("k", Json.int 2)] ∧
    (Config.merge_headers_with_priority [⟨1, "A"⟩, ⟨2, "B"⟩]
      [(1, ⟨[("k", Json.int 1)]⟩), (2, ⟨[]⟩)]).merged_headers =
      [("k", Json.int 1)] := by
  refine ⟨?_, rfl, rfl, rfl⟩
  rw [Config.merge_headers_with_priority, Config.mergeFold_lookup]
  cases h : Config.lastBinding (Config.contributions fp hm) k <;> simp [Json.lookupField]

end Config

namespace Json

/-- All ways to pick one element out of a list, as (picked, rest) pairs. -/
def allRemovals : List Json → List (Json × List Json)
  | [] => []
  | a :: as => (a, as) :: (allRemovals as).map (fun p => (p.1, a :: p.2))

/-- Comparison definition following the spec's words for the array case of
`contains`: a multiset-subset match — every expected element must match
(by `_subset`) some not-yet-used actual element, order-independently, i.e.
some injective assignment of expected elements to actual elements exists. -/
def specArrayContains : List Json → List Json → Bool
  | [], _ => true
  | e :: es, as => (allRemovals as).any (fun p => subset e p.1 && specArrayContains es p.2)

theorem removeFirstMatch_mem {e : Json} :
    ∀ {as rest : List Json}, removeFirstMatch e as = some rest →
      ∃ a, (a, rest) ∈ allRemovals as ∧ subset e a = true := by
  intro as
  induction as with
  | nil => intro rest h; rw [removeFirstMatch] at h; exact Option.noConfusion h
  | cons a tl ih =>
    intro rest h
    rw [removeFirstMatch] at h
    split at h
    · rename_i hsub
      cases h
      exact ⟨a, by simp [allRemovals], hsub⟩
    · rename_i hsub
      split at h
      · rename_i rest2 hr2
        cases h
        obtain ⟨b, hbmem, hbsub⟩ := ih hr2
        refine ⟨b, ?_, hbsub⟩
        rw [allRemovals]
        exact List.mem_cons_of_mem _ (List.mem_map_of_mem _ hbmem)
      · exact Option.noConfusion h

theorem subsetArr_implies_spec :
    ∀ (es as : List Json), subsetArr es as = true → specArrayContains es as = true := by
  intro es
  induction es with
  | nil => intro as _; rw [specArrayContains]
  | cons e tl ih =>
    intro as h
    rw [subsetArr] at h
    split at h
    · rename_i rest hrm
      obtain ⟨a, hmem, hsub⟩ := removeFirstMatch_mem hrm
      rw [specArrayContains, List.any_eq_true]
      exact ⟨(a, rest), hmem, by simp [hsub, ih rest h]⟩
    · exact absurd h (by simp)

theorem subsetFields_iff (afs : List (String × Json)) :
    ∀ (efs : List (String × Json)), subsetFields efs afs = true ↔
      ∀ kv ∈ efs, ∃ w, lookupField afs kv.1 = some w ∧ subset kv.2 w = true := by
  intro efs
  induction efs with
  | nil => simp [subsetFields]
  | cons a tl ih =>
    rw [subsetFields]
    rw [Bool.and_eq_true, ih]
    constructor
    · rintro ⟨h1, h2⟩ kv hkv
      rcases List.mem_cons.1 hkv with hkv | hkv
      · subst hkv
        cases hlk : lookupField afs kv.1 with
        | none => rw [hlk] at h1; exact absurd h1 (by simp)
        | some w => rw [hlk] at h1; exact ⟨w, rfl, h1⟩
      · exact h2 kv hkv
    · intro h
      constructor
      · obtain ⟨w, hw, hsub⟩ := h a (by simp)
        rw [hw]
        exact hsub
      · exact fun kv hkv => h kv (List.mem_cons_of_mem _ hkv)

end Json

/-- Claim C4 counterexample: the array case of `contains` is not the
order-independent multiset-subset relation.  Expected
`[(), (k: 1)]` against actual `[(k: 1), (k: 2)]`: an injective matching
exists (the empty dict matches `(k: 2)`, and `(k: 1)` matches `(k: 1)`),
so the claimed semantics passes, but the source's greedy first-fit loop
consumes `(k: 1)` for the empty dict and then fails, so the check records
a failure. -/
theorem c4_contains_counterexample :
    Json.pyContains
      (.arr [.obj [("k", .int 1)], .obj [("k", .int 2)]])
      (.arr [.obj [], .obj [("k", .int 1)]]) = false ∧
    Json.specArrayContains [.obj [], .obj [("k", .int 1)]]
      [.obj [("k", .int 1)], .obj [("k", .int 2)]] = true ∧
    apply_check (fun _ _ => false)
      (.obj [("a", .arr [.obj [("k", .int 1)], .obj [("k", .int 2)]])])
      { path := some (.str "a"),
        contains := some (.arr [.obj [], .obj [("k", .int 1)]]) } [] "json" =
      .ok ["a: does not contain expected content"] := by
  refine ⟨?_, ?_, ?_⟩
  · simp [Json.pyContains, Json.subset, Json.subsetArr, Json.removeFirstMatch,
      Json.subsetFields, Json.lookupField, Json.pyEq, Json.pyEqFields, Json.numVal?]
  · simp [Json.specArrayContains, Json.allRemovals, Json.subset, Json.subsetArr,
      Json.removeFirstMatch, Json.subsetFields, Json.lookupField, Json.pyEq,
      Json.pyEqFields, Json.numVal?]
  · simp [apply_check, Json.resolve_path, Json.pathParts, Json.convBrackets, Json.splitDot,
      Json.resolveSegs, Json.lookupFieldChars, truthyOpt, String.data, pure, Except.pure,
      bind, Except.bind, Json.pyContains, Json.subset, Json.subsetArr, Json.removeFirstMatch,
      Json.subsetFields, Json.lookupField, Json.pyEq, Json.pyEqFields, Json.numVal?]

/-- Claim C4 (amended): `contains` semantics.  (a) For string actual and
expected values the check passes iff the expected string occurs
contiguously inside the actual one.  (b) For an object actual and object
expected, it passes iff every expected field key exists in the actual
object with a recursively `_subset`-matching value.  (c) For arrays the
check computes the greedy first-fit loop `subsetArr`; greedy success
implies the order-independent multiset-subset matching of the spec, but
(per the counterexample) not conversely. -/
theorem c4_contains_semantics :
    (∀ a e : String, Json.pyContains (.str a) (.str e) = true ↔ e.data <:+: a.data) ∧
    (∀ (efs afs : List (String × Json)),
      Json.pyContains (.obj afs) (.obj efs) = true ↔
        ∀ kv ∈ efs, ∃ w, Json.lookupField afs kv.1 = some w ∧ Json.subset kv.2 w = true) ∧
    (∀ (es as : List Json), Json.pyContains (.arr as) (.arr es) = Json.subsetArr es as) ∧
    (∀ (es as : List Json), Json.subsetArr es as = true →
      Json.specArrayContains es as = true) := by
  refine ⟨?_, ?_, ?_, Json.subsetArr_implies_spec⟩
  · intro a e
    simp [Json.pyContains, Json.pyInStr]
  · intro efs afs
    rw [show Json.pyContains (.obj afs) (.obj efs) = Json.subsetFields efs afs from by
      simp [Json.pyContains, Json.subset]]
    exact Json.subsetFields_iff afs efs
  · intro es as
    simp [Json.pyContains, Json.subset]

/-- Witness for claim C4 at concrete inputs: `"bc"` occurs in `"abcd"`;
the object `(k: v, x: 1)` contains `(k: v)`; and the greedy array loop
succeeds on expected `[1]` against actual `[2, 1]`, which therefore also
satisfies the spec's multiset-subset reading. -/
theorem c4_contains_semantics_witness :
    Json.pyContains (.str "abcd") (.str "bc") = true ∧
    Json.pyContains (.obj [("k", .str "v"), ("x", .int 1)]) (.obj [("k", .str "v")]) = true ∧
    Json.subsetArr [.int 1] [.int 2, .int 1] = true ∧
    Json.specArrayContains [.int 1] [.int 2, .int 1] = true := by
  have h1 := (c4_contains_semantics.1 "abcd" "bc").2 (by decide)
  have h2 := (c4_contains_semantics.2.1 [("k", .str "v")]
    [("k", .str "v"), ("x", .int 1)]).2 (by
      intro kv hkv
      simp only [List.mem_singleton] at hkv
      subst hkv
      exact ⟨.str "v", by simp [Json.lookupField], by
        simp [Json.subset, Json.pyEq, Json.numVal?]⟩)
  have h3 : Json.subsetArr [.int 1] [.int 2, .int 1] = true := by
    simp [Json.subsetArr, Json.removeFirstMatch, Json.subset, Json.pyEq, Json.numVal?]
  exact ⟨h1, h2, h3, c4_contains_semantics.2.2.2 [.int 1] [.int 2, .int 1] h3⟩

theorem validate_ok_statusErrs_ne (recompile : String → Bool)
    (fields : List (String × Json)) (r : Bool × List String)
    (hne : statusErrs fields ≠ [])
    (h : validate_expected_spec recompile (.obj fields) = .ok r) : r.1 = false := by
  rw [validate_expected_spec] at h
  have key : ∀ (pre : List String) (post : List String),
      (.ok ((statusErrs fields ++ post).isEmpty, statusErrs fields ++ post) :
        Except PyErr (Bool × List String)) = .ok r → pre = pre → r.1 = false := by
    intro pre post hh _
    cases hh
    cases hie : (statusErrs fields ++ post).isEmpty
    · rfl
    · exact absurd (List.append_eq_nil.1 (List.isEmpty_iff.1 hie)).1 hne
  cases hl : Json.lookupField fields "headers_regex" with
  | none =>
    simp only [hl] at h
    cases hj : jsonErrs recompile fields with
    | error e =>
      rw [hj] at h
      simp [bind, Except.bind] at h
    | ok jf =>
      rw [hj] at h
      simp only [bind, Except.bind, List.append_assoc] at h
      exact key [] _ h rfl
  | some v =>
    simp only [hl] at h
    cases v with
    | obj hs =>
      simp only [] at h
      cases hc : compileHeaderPatterns recompile hs with
      | error e =>
        rw [hc] at h
        simp [bind, Except.bind] at h
      | ok l =>
        rw [hc] at h
        cases hj : jsonErrs recompile fields with
        | error e =>
          rw [hj] at h
          simp [bind, Except.bind] at h
        | ok jf =>
          rw [hj] at h
          simp only [bind, Except.bind, List.append_assoc] at h
          exact key [] _ h rfl
    | null =>
      cases hj : jsonErrs recompile fields with
      | error e =>
        rw [hj] at h
        simp [bind, Except.bind] at h
      | ok jf =>
        rw [hj] at h
        simp only [bind, Except.bind, List.append_assoc] at h
        exact key [] _ h rfl
    | bool b =>
      cases hj : jsonErrs recompile fields with
      | error e =>
        rw [hj] at h
        simp [bind, Except.bind] at h
      | ok jf =>
        rw [hj] at h
        simp only [bind, Except.bind, List.append_assoc] at h
        exact key [] _ h rfl
    | int n =>
      cases hj : jsonErrs recompile fields with
      | error e =>
        rw [hj] at h
        simp [bind, Except.bind] at h
      | ok jf =>
        rw [hj] at h
        simp only [bind, Except.bind, List.append_assoc] at h
        exact key [] _ h rfl
    | float q =>
      cases hj : jsonErrs recompile fields with
      | error e =>
        rw [hj] at h
        simp [bind, Except.bind] at h
      | ok jf =>
        rw [hj] at h
        simp only [bind, Except.bind, List.append_assoc] at h
        exact key [] _ h rfl
    | str sv =>
      cases hj : jsonErrs recompile fields with
      | error e =>
        rw [hj] at h
        simp [bind, Except.bind] at h
      | ok jf =>
        rw [hj] at h
        simp only [bind, Except.bind, List.append_assoc] at h
        exact key [] _ h rfl
    | arr xs =>
      cases hj : jsonErrs recompile fields with
      | error e =>
        rw [hj] at h
        simp [bind, Except.bind] at h
      | ok jf =>
        rw [hj] at h
        simp only [bind, Except.bind, List.append_assoc] at h
        exact key [] _ h rfl

/-- Claim C6: status exclusivity in the shape-validator.  Whenever
`validate_expected_spec` returns, the result has `ok = false` if both
`status` and `status_in` are supplied, or `status` is not an integer in
100..599, or `status_in` is not a non-empty list of integers each in
100..599; and supplying neither key does not by itself make `ok` false
(the empty document validates with no errors). -/
theorem c6_status_exclusivity (recompile : String → Bool) :
    (∀ (fields : List (String × Json)) (r : Bool × List String),
      Json.hasField fields "status" = true → Json.hasField fields "status_in" = true →
      validate_expected_spec recompile (.obj fields) = .ok r → r.1 = false) ∧
    (∀ (fields : List (String × Json)) (r : Bool × List String) (st : Json),
      Json.lookupField fields "status" = some st →
      ¬(pyIsInt st = true ∧ 100 ≤ pyIntValue st ∧ pyIntValue st ≤ 599) →
      validate_expected_spec recompile (.obj fields) = .ok r → r.1 = false) ∧
    (∀ (fields : List (String × Json)) (r : Bool × List String) (si : Json),
      Json.lookupField fields "status_in" = some si →
      ¬(∃ l, si = Json.arr l ∧ (!l.isEmpty ∧ l.all pyIsInt) ∧
        (l.filter (fun x =>
          decide (pyIntValue x < 100 ∨ 599 < pyIntValue x))).isEmpty) →
      validate_expected_spec recompile (.obj fields) = .ok r → r.1 = false) ∧
    validate_expected_spec recompile (.obj []) = .ok (true, []) := by
  refine ⟨?_, ?_, ?_, rfl⟩
  · intro fields r h1 h2 hok
    refine validate_ok_statusErrs_ne recompile fields r ?_ hok
    rw [statusErrs, if_pos (by simp [h1, h2])]
    simp
  · intro fields r st hst hbad hok
    refine validate_ok_statusErrs_ne recompile fields r ?_ hok
    rw [statusErrs]
    intro hcontra
    rcases List.append_eq_nil.1 hcontra with ⟨hab, -⟩
    rcases List.append_eq_nil.1 hab with ⟨-, hstatus⟩
    rw [hst] at hstatus
    simp only [] at hstatus
    rw [if_neg hbad] at hstatus
    exact List.noConfusion hstatus
  · intro fields r si hsi hbad hok
    refine validate_ok_statusErrs_ne recompile fields r ?_ hok
    rw [statusErrs]
    intro hcontra
    rcases List.append_eq_nil.1 hcontra with ⟨-, hsin⟩
    rw [hsi] at hsin
    simp only [] at hsin
    cases si with
    | arr l =>
      simp only [] at hsin
      by_cases hshape : (!l.isEmpty ∧ l.all pyIsInt)
      · rw [if_pos hshape] at hsin
        by_cases hrange : (l.filter (fun x =>
            decide (pyIntValue x < 100 ∨ 599 < pyIntValue x))).isEmpty
        · exact hbad ⟨l, rfl, hshape, hrange⟩
        · rw [if_neg hrange] at hsin
          exact List.noConfusion hsin
      · rw [if_neg hshape] at hsin
        exact List.noConfusion hsin
    | null => simp at hsin
    | bool b => simp at hsin
    | int n => simp at hsin
    | float q => simp at hsin
    | str sv => simp at hsin
    | obj fs => simp at hsin

/-- Witness for claim C6 at concrete inputs: a document with both
`status: 200` and `status_in: [200]` validates to `ok = false`; a document
with `status: 42` (out of range) validates to `ok = false`; a document
with `status_in: []` validates to `ok = false`. -/
theorem c6_status_exclusivity_witness :
    (∃ r, validate_expected_spec (fun _ => true)
        (.obj [("status", .int 200), ("status_in", .arr [.int 200])]) = .ok r ∧
      r.1 = false) ∧
    (∃ r, validate_expected_spec (fun _ => true) (.obj [("status", .int 42)]) = .ok r ∧
      r.1 = false) ∧
    (∃ r, validate_expected_spec (fun _ => true) (.obj [("status_in", .arr [])]) = .ok r ∧
      r.1 = false) := by
  refine ⟨⟨_, rfl, ?_⟩, ⟨_, rfl, ?_⟩, ⟨_, rfl, ?_⟩⟩
  · exact (c6_status_exclusivity (fun _ => true)).1
      [("status", .int 200), ("status_in", .arr [.int 200])] _ rfl rfl rfl
  · exact (c6_status_exclusivity (fun _ => true)).2.1
      [("status", .int 42)] _ (.int 42) rfl (by decide) rfl
  · exact (c6_status_exclusivity (fun _ => true)).2.2.1
      [("status_in", .arr [])] _ (.arr []) rfl
      (by rintro ⟨l, hl, ⟨hne, -⟩, -⟩; cases hl; simp at hne) rfl

namespace Json

theorem resolveSegs_total :
    ∀ (parts : List (List Char)) (cur : Json),
      (∀ p ∈ parts, p.head? = some '#' → (pyIntChars? p.tail).isSome) →
      ∃ r, resolveSegs cur parts = .ok r := by
  intro parts
  induction parts with
  | nil => intro cur _; exact ⟨some cur, rfl⟩
  | cons p rest ih =>
    intro cur h
    have hrest : ∀ q ∈ rest, q.head? = some '#' → (pyIntChars? q.tail).isSome :=
      fun q hq => h q (List.mem_cons_of_mem _ hq)
    rw [resolveSegs.eq_def]
    simp only []
    by_cases hp : p.head? = some '#'
    · rw [if_pos hp]
      cases cur with
      | arr xs =>
        simp only []
        cases hint : pyIntChars? p.tail with
        | none =>
          have := h p (by simp) hp
          rw [hint] at this
          simp at this
        | some idx =>
          simp only []
          by_cases hneg : idx < 0
          · exact ⟨none, by rw [if_pos hneg]⟩
          · rw [if_neg hneg]
            cases hgt : xs[idx.toNat]? with
            | some v => exact ih v hrest
            | none => exact ⟨none, rfl⟩
      | null => exact ⟨none, rfl⟩
      | bool b => exact ⟨none, rfl⟩
      | int n => exact ⟨none, rfl⟩
      | float q => exact ⟨none, rfl⟩
      | str sv => exact ⟨none, rfl⟩
      | obj fs => exact ⟨none, rfl⟩
    · rw [if_neg hp]
      cases cur with
      | obj fs =>
        simp only []
        cases hlf : lookupFieldChars fs p with
        | some v =>
          simp only []
          exact ih v hrest
        | none => exact ⟨none, rfl⟩
      | null => exact ⟨none, rfl⟩
      | bool b => exact ⟨none, rfl⟩
      | int n => exact ⟨none, rfl⟩
      | float q => exact ⟨none, rfl⟩
      | str sv => exact ⟨none, rfl⟩
      | arr xs => exact ⟨none, rfl⟩

end Json

/-- Claim C8 counterexample: path resolution is not total.  The path
`"#x"` against the array `[1]` reaches `int("x")` inside `_resolve_path`,
which raises `ValueError` instead of returning the missing sentinel; the
path `"a[0]b"` against `(a: [5])` similarly reaches `int("0b")`. -/
theorem c8_path_resolution_counterexample :
    Json.resolve_path (.arr [.int 1]) "#x" = .error .valueError ∧
    Json.resolve_path (.obj [("a", .arr [.int 5])]) "a[0]b" = .error .valueError := by
  constructor <;>
    simp [Json.resolve_path, Json.pathParts, Json.convBrackets, Json.splitDot,
      Json.resolveSegs, Json.lookupFieldChars, pyIntChars?, String.data]

/-- Claim C8 (amended): path resolution totality and missing sentinel.
On every path whose parsed `#`-segments carry an `int()`-parsable index —
in particular every well-formed dotted/bracketed path — resolution never
raises and returns either a value or the missing sentinel, which is
distinct from JSON null; `a.b[0].c` resolves to 5 in the nested example
and `x.y` on an empty object gives the sentinel.  Indexing a non-array,
an out-of-range index, and an absent key each give the sentinel, not an
exception. -/
theorem c8_path_resolution (o : Json) (path : String) :
    ((∀ p ∈ Json.pathParts path, p.head? = some '#' → (pyIntChars? p.tail).isSome) →
      ∃ r, Json.resolve_path o path = .ok r) ∧
    Json.resolve_path (.obj [("a", .obj [("b", .arr [.obj [("c", .int 5)]])])])
      "a.b[0].c" = .ok (some (.int 5)) ∧
    Json.resolve_path (.obj []) "x.y" = .ok none ∧
    (none : Option Json) ≠ some Json.null ∧
    (∀ (fs : List (String × Json)) (p : List Char) (rest : List (List Char)),
      p.head? = some '#' → Json.resolveSegs (.obj fs) (p :: rest) = .ok none) ∧
    (∀ (xs : List Json) (p : List Char) (rest : List (List Char)) (idx : Int),
      p.head? = some '#' → pyIntChars? p.tail = some idx → 0 ≤ idx →
      xs.length ≤ idx.toNat → Json.resolveSegs (.arr xs) (p :: rest) = .ok none) ∧
    (∀ (fs : List (String × Json)) (p : List Char) (rest : List (List Char)),
      ¬p.head? = some '#' → Json.lookupFieldChars fs p = none →
      Json.resolveSegs (.obj fs) (p :: rest) = .ok none) := by
  refine ⟨?_, ?_, ?_, by simp, ?_, ?_, ?_⟩
  · intro hgood
    rw [Json.resolve_path]
    by_cases h0 : path.data = []
    · rw [if_pos h0]; exact ⟨some o, rfl⟩
    · rw [if_neg h0]
      simp only []
      split
      · exact ⟨some o, rfl⟩
      · exact Json.resolveSegs_total (Json.pathParts path) o hgood
  · simp [Json.resolve_path, Json.pathParts, Json.convBrackets, Json.splitDot,
      Json.resolveSegs, Json.lookupFieldChars, pyIntChars?, String.data]
  · simp [Json.resolve_path, Json.pathParts, Json.convBrackets, Json.splitDot,
      Json.resolveSegs, Json.lookupFieldChars, pyIntChars?, String.data]
  · intro fs p rest hp
    rw [Json.resolveSegs, if_pos hp]
  · intro xs p rest idx hp hint hnn hlen
    rw [Json.resolveSegs, if_pos hp]
    simp only [hint]
    rw [if_neg (by omega)]
    rw [show xs[idx.toNat]? = none from List.getElem?_eq_none hlen]
  · intro fs p rest hp hlf
    rw [Json.resolveSegs, if_neg hp]
    simp only [hlf]

/-- Witness for claim C8 at a concrete input: every parsed segment of
`"a.b[0].c"` satisfies the index-parsability hypothesis, so resolution
returns without raising. -/
theorem c8_path_resolution_witness :
    (∀ p ∈ Json.pathParts "a.b[0].c", p.head? = some '#' → (pyIntChars? p.tail).isSome) ∧
    (∃ r, Json.resolve_path (.obj []) "a.b[0].c" = .ok r) := by
  have hpp : Json.pathParts "a.b[0].c" = [['a'], ['b'], ['#', '0'], ['c']] := by
    simp [Json.pathParts, Json.convBrackets, Json.splitDot, String.data]
  have hgood : ∀ p ∈ Json.pathParts "a.b[0].c", p.head? = some '#' →
      (pyIntChars? p.tail).isSome := by
    rw [hpp]
    intro p hp
    fin_cases hp <;> decide
  exact ⟨hgood, (c8_path_resolution (.obj []) "a.b[0].c").1 hgood⟩

theorem jsonSection_body (research : String → String → Bool) (resp : Response)
    (ex : Expect) (jx : JsonExpect) (fields : List (String × Json))
    (bj : Option Json) (jf : List String)
    (hx : ex.json = some jx) (hr : resp.jsonResult = some (.obj fields))
    (hjs : jsonSection research resp ex = .ok (bj, jf)) : bj = some (.obj fields) := by
  rw [jsonSection, hx, hr] at hjs
  simp only [] at hjs
  cases happly : applyChecksAll research (.obj fields) "json" jx.checks [] with
  | error e =>
    rw [happly] at hjs
    simp [bind, Except.bind] at hjs
  | ok f1 =>
    rw [happly] at hjs
    simp only [bind, Except.bind] at hjs
    cases hei : jx.either with
    | nil =>
      rw [hei] at hjs
      simp only [pure, Except.pure] at hjs
      cases hjs
      rfl
    | cons br brs =>
      rw [hei] at hjs
      simp only [] at hjs
      cases hel : eitherLoop research (.obj fields) (br :: brs) with
      | error e =>
        rw [hel] at hjs
        simp [bind, Except.bind] at hjs
      | ok reasons =>
        rw [hel] at hjs
        simp only [bind, Except.bind] at hjs
        cases reasons with
        | none =>
          simp only [pure, Except.pure] at hjs
          cases hjs
          rfl
        | some rs =>
          simp only [pure, Except.pure] at hjs
          cases hjs
          rfl

/-- Claim C1 counterexample: an empty expectation spec (no `json` block,
`_mirror_http_status` absent hence defaulting to on), against a response
whose JSON body is an object with `response_code: 201` and whose HTTP
status is 200, evaluates to `ok = true` with no failures: the mirror
safeguard never fires, because `body_json` is parsed only when the spec
has a `json` key. -/
theorem c1_mirror_counterexample :
    evaluate_expect (fun _ _ => false)
      ⟨200, "", [], some (.obj [("response_code", .int 201)])⟩ {} = .ok (true, []) := rfl


theorem mem_isEmpty_false {x : String} {l : List String} (h : x ∈ l) :
    l.isEmpty = false ∧ x ∈ l := by
  refine ⟨?_, h⟩
  cases l
  · simp at h
  · rfl

/-- Claim C1 (amended): mirror-status safeguard, conditional on a `json`
block.  For every response whose body parses to a JSON object with a
`response_code` field, and every spec that does contain a `json` section
but no `response_code`-equals check, with the `_mirror_http_status` flag
absent or truthy: whenever the body's `response_code` value differs from
the HTTP status code and `evaluate_expect` returns, it returns
`ok = false` with the mirror-mismatch failure among the reasons.
(Without a `json` key the safeguard cannot fire — see the
counterexample.) -/
theorem c1_mirror_safeguard (research : String → String → Bool) (resp : Response)
    (ex : Expect) (jx : JsonExpect) (fields : List (String × Json)) (rc : Json)
    (b : Bool) (fs : List String)
    (hx : ex.json = some jx)
    (hr : resp.jsonResult = some (.obj fields))
    (hrc : Json.lookupField fields "response_code" = some rc)
    (hassert : has_response_code_assert ex = false)
    (hflag : truthyFlag ex.mirror_http_status = true)
    (hne : Json.pyEq rc (.int resp.status_code) = false)
    (hok : evaluate_expect research resp ex = .ok (b, fs)) :
    b = false ∧ mirrorFailure resp.status_code ∈ fs := by
  rw [evaluate_expect] at hok
  simp only [bind, Except.bind] at hok
  cases hjs : jsonSection research resp ex with
  | error e =>
    rw [hjs] at hok
    simp at hok
  | ok pr =>
    obtain ⟨bj, jf⟩ := pr
    have hbj : bj = some (.obj fields) :=
      jsonSection_body research resp ex jx fields bj jf hx hr hjs
    rw [hjs] at hok
    simp only [pure, Except.pure] at hok
    rw [hbj] at hok
    simp only [Except.ok.injEq, Prod.mk.injEq] at hok
    obtain ⟨hb, hfs⟩ := hok
    subst hfs
    subst hb
    exact mem_isEmpty_false (by simp [hflag, hrc, hassert, hne, List.mem_append])

/-- Witness for claim C1 at a concrete input: a spec with an (empty)
`json` section, response body `response_code: 201` with HTTP status 200 —
evaluation returns `ok = false` carrying the mirror-mismatch failure. -/
theorem c1_mirror_safeguard_witness :
    evaluate_expect (fun _ _ => false)
        ⟨200, "", [], some (.obj [("response_code", .int 201)])⟩
        { json := some {} } = .ok (false, [mirrorFailure 200]) ∧
    (false = false ∧ mirrorFailure 200 ∈ [mirrorFailure 200]) :=
  ⟨rfl, c1_mirror_safeguard (fun _ _ => false)
    ⟨200, "", [], some (.obj [("response_code", .int 201)])⟩
    { json := some {} } {} [("response_code", .int 201)] (.int 201) false
    [mirrorFailure 200] rfl rfl rfl rfl rfl rfl rfl⟩

theorem jsonSection_nonnull (research : String → String → Bool) (resp : Response)
    (ex : Expect) (jx : JsonExpect) (body : Json)
    (hx : ex.json = some jx) (hr : resp.jsonResult = some body) (hnn : body ≠ .null) :
    jsonSection research resp ex =
      (do
        let f1 ← applyChecksAll research body "json" jx.checks []
        match jx.either with
        | [] => return (some body, f1)
        | branches =>
          match ← eitherLoop research body branches with
          | none => return (some body, f1)
          | some reasons =>
            return (some body, f1 ++ ["json.either: none matched. Reasons: " ++
              renderReasons reasons])) := by
  rw [jsonSection, hx, hr]
  cases body
  case null => exact absurd rfl hnn
  all_goals rfl

/-- Claim C5: either semantics.  The branch loop returns "some branch
passed" (`none` here, mirroring `any_ok`) iff at least one branch
accumulates zero local failures (first part; the collected reasons are
exactly the failing branches' nonempty local failure lists, in order).
Against a spec with a `json` section and a non-empty `either` list and a
JSON-parsable (non-null) body: when some branch passes, the either section
contributes no failure to the overall result; when no branch passes,
exactly one failure is appended, carrying the failing branches' reasons
(second part). -/
theorem c5_either_semantics (research : String → String → Bool) :
    (∀ (body : Json) (branches : List EitherBranch) (r : Option (List (List String))),
      eitherLoop research body branches = .ok r →
      ((r = none ↔ ∃ br ∈ branches,
          applyChecksAll research body "json.either" br.checks [] = .ok []) ∧
       (∀ reasons, r = some reasons →
         List.Forall₂ (fun br lfs =>
           applyChecksAll research body "json.either" br.checks [] = .ok lfs ∧ lfs ≠ [])
           branches reasons))) ∧
    (∀ (resp : Response) (ex : Expect) (jx : JsonExpect) (body : Json) (f1 : List String),
      ex.json = some jx → resp.jsonResult = some body → body ≠ Json.null →
      jx.either ≠ [] →
      applyChecksAll research body "json" jx.checks [] = .ok f1 →
      (eitherLoop research body jx.either = .ok none →
        jsonSection research resp ex = .ok (some body, f1)) ∧
      (∀ reasons, eitherLoop research body jx.either = .ok (some reasons) →
        jsonSection research resp ex = .ok (some body,
          f1 ++ ["json.either: none matched. Reasons: " ++ renderReasons reasons]))) := by
  constructor
  · intro body branches
    induction branches with
    | nil =>
      intro r hok
      rw [eitherLoop] at hok
      cases hok
      constructor
      · simp
      · intro reasons hr
        cases hr
        exact List.Forall₂.nil
    | cons br rest ih =>
      intro r hok
      rw [eitherLoop] at hok
      cases happ : applyChecksAll research body "json.either" br.checks [] with
      | error e =>
        rw [happ] at hok
        simp [bind, Except.bind] at hok
      | ok lfs =>
        rw [happ] at hok
        simp only [bind, Except.bind] at hok
        by_cases hemp : lfs.isEmpty
        · rw [if_pos hemp] at hok
          cases hok
          constructor
          · exact iff_of_true rfl ⟨br, by simp, by rw [happ, List.isEmpty_iff.1 hemp]⟩
          · intro reasons hr
            cases hr
        · rw [if_neg hemp] at hok
          cases hel : eitherLoop research body rest with
          | error e =>
            rw [hel] at hok
            simp [bind, Except.bind] at hok
          | ok r' =>
            rw [hel] at hok
            simp only [bind, Except.bind] at hok
            obtain ⟨hiff, hsome⟩ := ih r' hel
            cases r' with
            | none =>
              simp only [pure, Except.pure] at hok
              cases hok
              constructor
              · refine iff_of_true rfl ?_
                obtain ⟨br', hbr', hpass⟩ := hiff.1 rfl
                exact ⟨br', List.mem_cons_of_mem _ hbr', hpass⟩
              · intro reasons hr
                cases hr
            | some rs =>
              simp only [pure, Except.pure] at hok
              cases hok
              constructor
              · refine iff_of_false (by simp) ?_
                rintro ⟨br', hbr', hpass⟩
                rcases List.mem_cons.1 hbr' with hbr' | hbr'
                · subst hbr'
                  rw [happ] at hpass
                  cases hpass
                  simp at hemp
                · have : (some rs : Option (List (List String))) = none :=
                    hiff.2 ⟨br', hbr', hpass⟩
                  cases this
              · intro reasons hr
                cases hr
                exact List.Forall₂.cons
                  ⟨happ, fun hnil => hemp (by rw [hnil]; rfl)⟩ (hsome rs rfl)
  · intro resp ex jx body f1 hx hr hnn hne happ
    have hjs := jsonSection_nonnull research resp ex jx body hx hr hnn
    constructor
    · intro helnone
      rw [hjs]
      simp only [bind, Except.bind, happ]
      cases hei : jx.either with
      | nil => exact absurd hei hne
      | cons br brs =>
        rw [hei] at helnone
        simp only [helnone, bind, Except.bind]
        rfl
    · intro reasons helsome
      rw [hjs]
      simp only [bind, Except.bind, happ]
      cases hei : jx.either with
      | nil => exact absurd hei hne
      | cons br brs =>
        rw [hei] at helsome
        simp only [helsome, bind, Except.bind]
        rfl

/-- The two-branch `either` example of the spec (`error_message` present
or `detail` present), used to witness claim C5. -/
def c5Branches : List EitherBranch :=
  [⟨[{ path := some (.str "error_message"), present := some (.bool true) }]⟩,
   ⟨[{ path := some (.str "detail"), present := some (.bool true) }]⟩]

/-- A response body where only `detail` exists. -/
def c5Body : Json := .obj [("detail", .str "oops")]

/-- Witness for claim C5 at a concrete input: with body
`detail: "oops"`, the second branch passes, the loop reports success,
some branch indeed accumulates zero failures, and the `json` section
contributes no failure to the overall result. -/
theorem c5_either_semantics_witness :
    eitherLoop (fun _ _ => false) c5Body c5Branches = .ok none ∧
    (∃ br ∈ c5Branches,
      applyChecksAll (fun _ _ => false) c5Body "json.either" br.checks [] = .ok []) ∧
    jsonSection (fun _ _ => false) ⟨422, "", [], some c5Body⟩
      { json := some ⟨[], c5Branches⟩ } = .ok (some c5Body, []) := by
  have hel : eitherLoop (fun _ _ => false) c5Body c5Branches = .ok none := by
    simp [eitherLoop, applyChecksAll, apply_check, Json.resolve_path, Json.pathParts,
      Json.convBrackets, Json.splitDot, Json.resolveSegs, Json.lookupFieldChars,
      truthyOpt, Json.pyTruthy, String.data, c5Body, c5Branches, bind, Except.bind,
      pure, Except.pure]
  refine ⟨hel, ?_, ?_⟩
  · exact ((c5_either_semantics (fun _ _ => false)).1 c5Body c5Branches none hel).1.1 rfl
  · exact ((c5_either_semantics (fun _ _ => false)).2 ⟨422, "", [], some c5Body⟩
      { json := some ⟨[], c5Branches⟩ } ⟨[], c5Branches⟩ c5Body [] rfl rfl (by simp [c5Body])
      (by simp [c5Branches]) rfl).1 hel

namespace ExecuteDirect

theorem dedupAux_sublist : ∀ (l seen : List String), List.Sublist (dedupAux l seen) l := by
  intro l
  induction l with
  | nil => intro seen; exact List.Sublist.refl []
  | cons u rest ih =>
    intro seen
    rw [dedupAux]
    split
    · exact (ih seen).cons u
    · exact (ih (u :: seen)).cons₂ u

theorem dedupAux_mem : ∀ (l seen : List String) (x : String),
    x ∈ dedupAux l seen ↔ (x ∈ l ∧ ¬x ∈ seen) := by
  intro l
  induction l with
  | nil => intro seen x; simp [dedupAux]
  | cons u rest ih =>
    intro seen x
    rw [dedupAux]
    split
    · rename_i hseen
      rw [ih seen x]
      constructor
      · rintro ⟨hx, hns⟩
        exact ⟨List.mem_cons_of_mem _ hx, hns⟩
      · rintro ⟨hx, hns⟩
        rcases List.mem_cons.1 hx with hx | hx
        · subst hx
          exact absurd (by simpa using hseen : x ∈ seen) hns
        · exact ⟨hx, hns⟩
    · rename_i hseen
      rw [List.mem_cons, ih (u :: seen) x]
      have hu : ¬u ∈ seen := fun hc => hseen (by simpa using hc)
      constructor
      · rintro (hx | ⟨hx, hns⟩)
        · subst hx
          exact ⟨by simp, hu⟩
        · exact ⟨List.mem_cons_of_mem _ hx, fun hc => hns (List.mem_cons_of_mem _ hc)⟩
      · rintro ⟨hx, hns⟩
        rcases List.mem_cons.1 hx with hx | hx
        · exact Or.inl hx
        · by_cases hxu : x = u
          · exact Or.inl hxu
          · exact Or.inr ⟨hx, by
              intro hc
              rcases List.mem_cons.1 hc with hc | hc
              · exact hxu hc
              · exact hns hc⟩

theorem dedupAux_nodup : ∀ (l seen : List String), (dedupAux l seen).Nodup := by
  intro l
  induction l with
  | nil => intro seen; simp [dedupAux]
  | cons u rest ih =>
    intro seen
    rw [dedupAux]
    split
    · exact ih seen
    · refine List.nodup_cons.2 ⟨?_, ih (u :: seen)⟩
      intro hc
      exact ((dedupAux_mem rest (u :: seen) u).1 hc).2 (by simp)

theorem attemptUrls_ok (f : String → Except Runner.TransportError Response) :
    ∀ (cands : List String) (le : Option Runner.TransportError) (u : String) (r : Response),
      attemptUrls f cands le = .ok (u, r) →
      ∃ pre post, cands = pre ++ u :: post ∧ (∀ p ∈ pre, ∃ e, f p = .error e) ∧
        f u = .ok r := by
  intro cands
  induction cands with
  | nil => intro le u r h; rw [attemptUrls] at h; exact Except.noConfusion h
  | cons c rest ih =>
    intro le u r h
    rw [attemptUrls] at h
    cases hf : f c with
    | ok r0 =>
      rw [hf] at h
      simp only [Except.ok.injEq, Prod.mk.injEq] at h
      obtain ⟨hu, hr⟩ := h
      subst hu
      subst hr
      exact ⟨[], rest, rfl, by simp, hf⟩
    | error e =>
      rw [hf] at h
      obtain ⟨pre, post, hc, hpre, hfu⟩ := ih (some e) u r h
      refine ⟨c :: pre, post, by rw [hc, List.cons_append], ?_, hfu⟩
      intro p hp
      rcases List.mem_cons.1 hp with hp | hp
      · exact ⟨e, hp ▸ hf⟩
      · exact hpre p hp

theorem attemptUrls_error (f : String → Except Runner.TransportError Response) :
    ∀ (cands : List String) (le e : Option Runner.TransportError),
      attemptUrls f cands le = .error e →
      (∀ c ∈ cands, ∃ ec, f c = .error ec) ∧
      (match cands.getLast? with
       | some cl => ∃ ecl, f cl = .error ecl ∧ e = some ecl
       | none => e = le) := by
  intro cands
  induction cands with
  | nil =>
    intro le e h
    rw [attemptUrls] at h
    cases h
    exact ⟨by simp, rfl⟩
  | cons c rest ih =>
    intro le e h
    rw [attemptUrls] at h
    cases hf : f c with
    | ok r0 =>
      rw [hf] at h
      exact Except.noConfusion h
    | error ec =>
      rw [hf] at h
      obtain ⟨hall, hlast⟩ := ih (some ec) e h
      refine ⟨?_, ?_⟩
      · intro x hx
        rcases List.mem_cons.1 hx with hx | hx
        · exact ⟨ec, hx ▸ hf⟩
        · exact hall x hx
      · cases rest with
        | nil =>
          simp only [List.getLast?_singleton]
          exact ⟨ec, hf, hlast⟩
        | cons r2 rs =>
          rw [List.getLast?_cons_cons]
          exact hlast

end ExecuteDirect

theorem resolve_docker_url_head (url : String) (dh : Option String) :
    (ExecuteDirect.resolve_docker_url url dh).head? = some url := by
  rw [ExecuteDirect.resolve_docker_url.eq_def]
  simp only [List.cons_append, List.nil_append]
  rw [ExecuteDirect.dedupFO, ExecuteDirect.dedupAux]
  rw [if_neg (by simp)]
  rfl

/-- A transport that refuses the original localhost URL but answers on the
first Docker alternate with HTTP 222. -/
def c3f : String → Except Runner.TransportError Response := fun u =>
  if u = "http://localhost:9/api" then .error (.connectError "refused")
  else if u = "http://host.docker.internal:9/api" then .ok ⟨222, "alt", [], none⟩
  else .error (.connectError "other")

/-- Claim C3 counterexample: when the primary URL fails and an alternate
succeeds, the success envelope's recorded `resolved_url` is the original
URL, not the alternate (the response itself is the alternate's: status
222 only exists there). -/
theorem c3_transport_fallback_counterexample :
    ExecuteDirect.execute_api_direct_call c3f "http://localhost:9/api" none =
      .success ⟨222, "alt", "http://localhost:9/api"⟩ ∧
    c3f "http://localhost:9/api" = .error (.connectError "refused") ∧
    c3f "http://host.docker.internal:9/api" = .ok ⟨222, "alt", [], none⟩ ∧
    "http://localhost:9/api" ≠ "http://host.docker.internal:9/api" := by
  refine ⟨rfl, rfl, rfl, by decide⟩

/-- Claim C3 (amended): transport fallback.  The dispatcher builds an
ordered candidate list headed by the original URL, with duplicates
removed preserving first-occurrence order (the deduplicated list is a
nodup sublist of the raw alternatives with the same members).  It
attempts candidates in order and uses the first one that does not raise:
a successful attempt splits the candidates into a failing prefix, the
accepted candidate, and an untried tail.  On success the envelope carries
the successful response's data but records the original `final_url` as
`resolved_url` (not the alternate).  When every candidate fails, the last
candidate's transport error is surfaced through `handle_http_error` as a
transport-failure envelope, a constructor distinct from any success (and
hence from assertion failures, which only live inside success results). -/
theorem c3_transport_fallback (f : String → Except Runner.TransportError Response)
    (url : String) (dh : Option String) :
    (ExecuteDirect.resolve_docker_url url dh).head? = some url ∧
    (ExecuteDirect.resolve_docker_url url dh).Nodup ∧
    (∀ l : List String, List.Sublist (ExecuteDirect.dedupFO l) l ∧
      ∀ x, x ∈ ExecuteDirect.dedupFO l ↔ x ∈ l) ∧
    (∀ (u : String) (r : Response),
      ExecuteDirect.attemptUrls f (ExecuteDirect.resolve_docker_url url dh) none = .ok (u, r) →
      (∃ pre post, ExecuteDirect.resolve_docker_url url dh = pre ++ u :: post ∧
        (∀ p ∈ pre, ∃ e, f p = .error e) ∧ f u = .ok r) ∧
      ExecuteDirect.execute_api_direct_call f url dh =
        .success ⟨r.status_code, r.text, url⟩) ∧
    (∀ e : Runner.TransportError,
      ExecuteDirect.attemptUrls f (ExecuteDirect.resolve_docker_url url dh) none =
        .error (some e) →
      (∀ c ∈ ExecuteDirect.resolve_docker_url url dh, ∃ ec, f c = .error ec) ∧
      (∃ cl, (ExecuteDirect.resolve_docker_url url dh).getLast? = some cl ∧
        f cl = .error e) ∧
      ExecuteDirect.execute_api_direct_call f url dh = ExecuteDirect.handle_http_error e ∧
      ∀ d : ExecuteDirect.ExecData,
        ExecuteDirect.handle_http_error e ≠ .success d) := by
  refine ⟨?_, ?_, ?_, ?_, ?_⟩
  · exact resolve_docker_url_head url dh
  · exact ExecuteDirect.dedupAux_nodup _ []
  · intro l
    refine ⟨ExecuteDirect.dedupAux_sublist l [], fun x => ?_⟩
    rw [ExecuteDirect.dedupFO, ExecuteDirect.dedupAux_mem l [] x]
    simp
  · intro u r hat
    refine ⟨ExecuteDirect.attemptUrls_ok f _ none u r hat, ?_⟩
    rw [ExecuteDirect.execute_api_direct_call]
    simp only [hat]
  · intro e hat
    obtain ⟨hall, hlast⟩ := ExecuteDirect.attemptUrls_error f _ none (some e) hat
    have hcands : (ExecuteDirect.resolve_docker_url url dh) ≠ [] := by
      intro hc
      have h1 : (ExecuteDirect.resolve_docker_url url dh).head? = some url :=
        resolve_docker_url_head url dh
      rw [hc] at h1
      exact Option.noConfusion h1
    refine ⟨hall, ?_, ?_, ?_⟩
    · cases hgl : (ExecuteDirect.resolve_docker_url url dh).getLast? with
      | none => exact absurd (List.getLast?_eq_none_iff.1 hgl) hcands
      | some cl =>
        rw [hgl] at hlast
        obtain ⟨ecl, hfcl, hecl⟩ := hlast
        cases hecl
        exact ⟨cl, rfl, hfcl⟩
    · rw [ExecuteDirect.execute_api_direct_call]
      simp only [hat]
    · intro d
      cases e <;> simp [ExecuteDirect.handle_http_error]

/-- A transport that fails every URL with a timeout. -/
def c3fail : String → Except Runner.TransportError Response :=
  fun _ => .error (.timeout "deadline")

/-- Witness for claim C3 at concrete inputs: with the localhost URL,
`c3f` fails the primary and answers on an alternate — the candidates
split as the theorem states and the success envelope records the original
URL; with `c3fail` every candidate fails and the last candidate's timeout
surfaces as the 408 transport envelope, which is no success. -/
theorem c3_transport_fallback_witness :
    ((∃ pre post,
        ExecuteDirect.resolve_docker_url "http://localhost:9/api" none =
          pre ++ "http://host.docker.internal:9/api" :: post ∧
        (∀ p ∈ pre, ∃ e, c3f p = .error e) ∧
        c3f "http://host.docker.internal:9/api" = .ok ⟨222, "alt", [], none⟩) ∧
      ExecuteDirect.execute_api_direct_call c3f "http://localhost:9/api" none =
        .success ⟨222, "alt", "http://localhost:9/api"⟩) ∧
    ((∀ c ∈ ExecuteDirect.resolve_docker_url "http://localhost:9/api" none,
        ∃ ec, c3fail c = .error ec) ∧
      (∃ cl, (ExecuteDirect.resolve_docker_url "http://localhost:9/api" none).getLast? =
          some cl ∧ c3fail cl = .error (.timeout "deadline")) ∧
      ExecuteDirect.execute_api_direct_call c3fail "http://localhost:9/api" none =
        ExecuteDirect.handle_http_error (.timeout "deadline") ∧
      ∀ d : ExecuteDirect.ExecData,
        ExecuteDirect.handle_http_error (.timeout "deadline") ≠ .success d) := by
  constructor
  · exact (c3_transport_fallback c3f "http://localhost:9/api" none).2.2.2.1
      "http://host.docker.internal:9/api" ⟨222, "alt", [], none⟩ rfl
  · exact (c3_transport_fallback c3fail "http://localhost:9/api" none).2.2.2.2
      (.timeout "deadline") rfl
